import Mathlib

/-!
The package polydawn/terror: hierarchy discovery, cache and relationship test.

A shallow embedding of `terr_handling.go`.

* `reflect.Type` values are the elements of a type `Ty` with decidable
  equality; what package `reflect` reports about them is a `TypeEnv`.
* A Go call either returns or panics: `Outcome`.
* The process-wide `hierachyCacheAtom` is passed explicitly: a stateful
  function takes the snapshot held by the atom and returns the snapshot held
  afterwards.
-/

namespace Terror

/-! ## What package reflect reports -/

/-- The kinds of `reflect.Kind` the code distinguishes: `Struct` (the only
kind with fields), `Ptr` (the only kind `Is` strips), and the others. -/
inductive Kind where
  | Struct
  | Ptr
  | Interface
  | Other
deriving DecidableEq, Repr

/-- The facts `reflect` gives about each type of a program: `Kind()`,
`Elem()` of a pointer type, the field types of a struct type in declaration
order, `Implements(terror_t)`, and `Name()`. -/
structure TypeEnv (Ty : Type) where
  Kind : Ty → Kind
  Elem : Ty → Ty
  Fields : Ty → List Ty
  Implements : Ty → Bool
  Name : Ty → String

/-- The result of a Go call: a normal return, `panic("error not rooted")`,
a panic raised inside package `reflect` (`NumField` or `Field` of a
non-struct type), or exhaustion of the fuel of the loop model. -/
inductive Outcome (α : Type) where
  | ret (a : α)
  | panicNotRooted
  | panicReflect
  | outOfFuel
deriving DecidableEq, Repr

set_option linter.unusedSectionVars false
set_option linter.unusedVariables false

variable {Ty : Type} [DecidableEq Ty]

/-- `typ.NumField()`: panics unless the kind is `Struct`. -/
def NumField (env : TypeEnv Ty) (typ : Ty) : Outcome Nat :=
  if env.Kind typ = Kind.Struct then Outcome.ret (env.Fields typ).length
  else Outcome.panicReflect

/-- `typ.Field(0).Type`: panics unless the kind is `Struct` and there is a
field 0. -/
def Field0Type (env : TypeEnv Ty) (typ : Ty) : Outcome Ty :=
  if env.Kind typ = Kind.Struct then
    match env.Fields typ with
    | [] => Outcome.panicReflect
    | f :: _ => Outcome.ret f
  else Outcome.panicReflect

/-! ## TerrorHierarchy and DetermineHierarchy -/

/-- `type TerrorHierarchy []reflect.Type`: most specific first. -/
abbrev TerrorHierarchy (Ty : Type) := List Ty

/-- The body of the `for i := 0; ; i++` loop of `DetermineHierarchy`, one
iteration per unit of fuel; `i`, `hier` and `typ` are the loop variables. -/
def DetermineHierarchy.loop (env : TypeEnv Ty) :
    Nat → Nat → TerrorHierarchy Ty → Ty → Outcome (TerrorHierarchy Ty)
  | 0, _, _, _ => Outcome.outOfFuel
  | fuel + 1, i, hier, typ =>
    let hier := hier ++ [typ]
    match NumField env typ with
    | Outcome.ret n =>
      if n < 1 then Outcome.ret hier
      else
        match Field0Type env typ with
        | Outcome.ret typ1 =>
          if !env.Implements typ1 then Outcome.ret hier
          else if i ≥ 12 then Outcome.panicNotRooted
          else DetermineHierarchy.loop env fuel (i + 1) hier typ1
        | Outcome.panicNotRooted => Outcome.panicNotRooted
        | Outcome.panicReflect => Outcome.panicReflect
        | Outcome.outOfFuel => Outcome.outOfFuel
    | Outcome.panicNotRooted => Outcome.panicNotRooted
    | Outcome.panicReflect => Outcome.panicReflect
    | Outcome.outOfFuel => Outcome.outOfFuel

/-- `DetermineHierarchy(typ)`: the loop started at `i = 0` with an empty
`hier`. The counter is checked against 12 in every iteration that goes on, so
13 iterations are all the loop can make, and 13 units of fuel are given. -/
def DetermineHierarchy (env : TypeEnv Ty) (typ : Ty) : Outcome (TerrorHierarchy Ty) :=
  DetermineHierarchy.loop env 13 0 [] typ

/-! ## HierarchyCache and GetHierarchy -/

/-- `type HierarchyCache map[reflect.Type]TerrorHierarchy`, as the list of
its entries. -/
abbrev HierarchyCache (Ty : Type) := List (Ty × TerrorHierarchy Ty)

/-- `make(HierarchyCache)`. -/
def HierarchyCache.make : HierarchyCache Ty := []

/-- The map read `th, ok := hc[typ]`: `none` when `ok` is false. -/
def HierarchyCache.get : HierarchyCache Ty → Ty → Option (TerrorHierarchy Ty)
  | [], _ => none
  | (k, v) :: rest, typ => if k = typ then some v else HierarchyCache.get rest typ

/-- The map write `hc[typ] = th`: replaces the entry of `typ` or adds one. -/
def HierarchyCache.set : HierarchyCache Ty → Ty → TerrorHierarchy Ty → HierarchyCache Ty
  | [], typ, th => [(typ, th)]
  | (k, v) :: rest, typ, th =>
    if k = typ then (typ, th) :: rest else (k, v) :: HierarchyCache.set rest typ th

/-- The copy `next := make(HierarchyCache); for k, v := range hc { next[k] = v }`. -/
def HierarchyCache.copy (hc : HierarchyCache Ty) : HierarchyCache Ty :=
  hc.foldl (fun next kv => HierarchyCache.set next kv.1 kv.2) HierarchyCache.make

/-- `GetHierarchy(typ)` run on the snapshot `atom` that `hierachyCacheAtom`
holds: the outcome, and the snapshot the atom holds afterwards. A panic of
`DetermineHierarchy` leaves before the `Store`. -/
def GetHierarchy (env : TypeEnv Ty) (typ : Ty) (atom : HierarchyCache Ty) :
    Outcome (TerrorHierarchy Ty) × HierarchyCache Ty :=
  let hc := atom
  match HierarchyCache.get hc typ with
  | some th => (Outcome.ret th, atom)
  | none =>
    match DetermineHierarchy env typ with
    | Outcome.ret th =>
      let next := HierarchyCache.set (HierarchyCache.copy hc) typ th
      (Outcome.ret th, next)
    | Outcome.panicNotRooted => (Outcome.panicNotRooted, atom)
    | Outcome.panicReflect => (Outcome.panicReflect, atom)
    | Outcome.outOfFuel => (Outcome.outOfFuel, atom)

/-! ## Is -/

/-- The normalisation `if t.Kind() == reflect.Ptr { t = t.Elem() }` of `Is`. -/
def stripPtr (env : TypeEnv Ty) (t : Ty) : Ty :=
  if env.Kind t = Kind.Ptr then env.Elem t else t

/-- The scan `for _, t := range heir { if t == type2 { return true } }; return false`. -/
def scan : TerrorHierarchy Ty → Ty → Bool
  | [], _ => false
  | t :: rest, type2 => if t = type2 then true else scan rest type2

/-- `Is(this, that)`. An interface value is `none` when it is nil and
`some d` when it holds a value of dynamic type `d` (`reflect.TypeOf` reads
nothing else of it). -/
def Is (env : TypeEnv Ty) (this that : Option Ty) (atom : HierarchyCache Ty) :
    Outcome Bool × HierarchyCache Ty :=
  match this with
  | none => (Outcome.ret false, atom)
  | some d1 =>
    match that with
    | none => (Outcome.ret false, atom)
    | some d2 =>
      let type1 := stripPtr env d1
      let type2 := stripPtr env d2
      match GetHierarchy env type1 atom with
      | (Outcome.ret heir, atom1) => (Outcome.ret (scan heir type2), atom1)
      | (Outcome.panicNotRooted, atom1) => (Outcome.panicNotRooted, atom1)
      | (Outcome.panicReflect, atom1) => (Outcome.panicReflect, atom1)
      | (Outcome.outOfFuel, atom1) => (Outcome.outOfFuel, atom1)

/-- The snapshots the atom can hold: the empty map stored by `init`, and
whatever a `GetHierarchy` call leaves from a snapshot the atom held. (A call
that loaded an older snapshot stores a snapshot of this same set.) -/
inductive Reachable (env : TypeEnv Ty) : HierarchyCache Ty → Prop where
  | init : Reachable env HierarchyCache.make
  | call (typ : Ty) (hc : HierarchyCache Ty) :
      Reachable env hc → Reachable env (GetHierarchy env typ hc).2

/-! ## The types of errors.go and terr.go -/

/-- The types declared in `errors.go` and `terr.go`, the types of the fields
of `HelpfulError`, and pointers to them. -/
inductive RepoType where
  | HelpfulError
  | E_Any
  | E_IO
  | E_Network
  | string
  | Terror
  | ptr (elem : RepoType)
deriving DecidableEq, Repr

open RepoType in
/-- What `reflect` reports on the repository's types. `E_Any` declares the
methods `Terror` and `Error` on a value receiver; `E_IO` and `E_Network` get
them by embedding; a pointer to any of the three has them too. -/
def repoEnv : TypeEnv RepoType where
  Kind := fun t =>
    match t with
    | HelpfulError => Kind.Struct
    | E_Any => Kind.Struct
    | E_IO => Kind.Struct
    | E_Network => Kind.Struct
    | string => Kind.Other
    | Terror => Kind.Interface
    | ptr _ => Kind.Ptr
  Elem := fun t =>
    match t with
    | ptr e => e
    | t => t
  Fields := fun t =>
    match t with
    | HelpfulError => [string, ptr Terror]
    | E_Any => [HelpfulError]
    | E_IO => [ E_Any]
    | E_Network => [ E_IO]
    | _ => []
  Implements := fun t =>
    match t with
    | E_Any => true
    | E_IO => true
    | E_Network => true
    | Terror => true
    | ptr E_Any => true
    | ptr E_IO => true
    | ptr E_Network => true
    | _ => false
  Name := fun t =>
    match t with
    | HelpfulError => "HelpfulError"
    | E_Any => "E_Any"
    | E_IO => "E_IO"
    | E_Network => "E_Network"
    | string => "string"
    | Terror => "Terror"
    | ptr _ => ""

/-! ## The notions the properties are stated with -/

/-- The parent hop the loop of `DetermineHierarchy` takes from `t`: the type
of the first declared field of a struct type, when it implements `Terror`. -/
def parent (env : TypeEnv Ty) (t : Ty) : Option Ty :=
  if env.Kind t = Kind.Struct then
    match env.Fields t with
    | [] => none
    | f :: _ => if env.Implements f then some f else none
  else none

/-- The type reached from `t` by `n` successive parent hops, if there are
that many. -/
def ancestor (env : TypeEnv Ty) : Nat → Ty → Option Ty
  | 0, t => some t
  | n + 1, t => (parent env t).bind (ancestor env n)

/-- A root: no fields, or a first field whose type does not implement
`Terror`. -/
def IsRoot (env : TypeEnv Ty) (t : Ty) : Prop :=
  env.Fields t = [] ∨ ∃ f rest, env.Fields t = f :: rest ∧ env.Implements f = false

/-- The list `c` is the walk of parent hops from the struct type `t` to a
struct type that is a root. -/
inductive IsChain (env : TypeEnv Ty) : Ty → List Ty → Prop where
  | root (t : Ty) : env.Kind t = Kind.Struct → parent env t = none → IsChain env t [t]
  | hop (t p : Ty) (tl : List Ty) :
      parent env t = some p → IsChain env p tl → IsChain env t (t :: tl)

/-- A value of dynamic type `d` is an instance of `T`: a `T` or a `*T`. -/
def InstanceOf (env : TypeEnv Ty) (d T : Ty) : Prop :=
  d = T ∨ (env.Kind d = Kind.Ptr ∧ env.Elem d = T)

/-- The parent walk from `T` revisits a type: two different numbers of hops
reach the same type. -/
def Revisits (env : TypeEnv Ty) (T : Ty) : Prop :=
  ∃ i j x, i < j ∧ ancestor env i T = some x ∧ ancestor env j T = some x

/-! ## Further programs the properties are tried on -/

/-- A tower of struct types: `type T0 struct{}` with the methods `Terror`
and `Error`, and `type T(n+1) struct{ Tn }` for every `n`. The type `Tn` is
the number `n`. -/
def deepEnv : TypeEnv Nat where
  Kind := fun _ => Kind.Struct
  Elem := fun t => t
  Fields := fun t => if t = 0 then [] else [t - 1]
  Implements := fun _ => true
  Name := fun t => "T" ++ toString t

/-- A tower over a pointer: `type R struct{}` with the methods `Terror` and
`Error` is 0, the pointer type `*R` is 1, `type P2 struct{ *R }` is 2, and
`type P(n+1) struct{ Pn }` is `n + 1` for every `n ≥ 2`. -/
def ptrRootEnv : TypeEnv Nat where
  Kind := fun t => if t = 1 then Kind.Ptr else Kind.Struct
  Elem := fun t => if t = 1 then 0 else t
  Fields := fun t => if t ≤ 1 then [] else [t - 1]
  Implements := fun _ => true
  Name := fun t => if t = 0 then "R" else if t = 1 then "" else "P" ++ toString t

/-- Two struct types whose first fields have each other as type (`false`
and `true`), both implementing `Terror`. -/
def cyclicEnv : TypeEnv Bool where
  Kind := fun _ => Kind.Struct
  Elem := fun t => t
  Fields := fun t => [!t]
  Implements := fun _ => true
  Name := fun t => if t then "B" else "A"

/-- The repository's types with one declaration changed in a later field
only: `type E_IO struct{ E_Any; Path string }`. -/
def payloadEnv : TypeEnv RepoType :=
  { repoEnv with
    Fields := fun t =>
      match t with
      | RepoType.E_IO => [RepoType.E_Any, RepoType.string]
      | t => repoEnv.Fields t }

/-- A type whose first field is payload and whose second field is a
classification: `type E_Network struct{ HelpfulError; E_IO }`, the rest as in
the repository. -/
def mixedEnv : TypeEnv RepoType :=
  { repoEnv with
    Fields := fun t =>
      match t with
      | RepoType.E_Network => [RepoType.HelpfulError, RepoType.E_IO]
      | t => repoEnv.Fields t }

/-- A classification that is not a struct: `type Code string` with the
methods `Terror` and `Error` is `false`, the pointer type `*Code` is `true`. -/
def scalarEnv : TypeEnv Bool where
  Kind := fun t => if t then Kind.Ptr else Kind.Other
  Elem := fun _ => false
  Fields := fun _ => []
  Implements := fun _ => true
  Name := fun t => if t then "" else "Code"

/-- The repository's types and one unnamed type: `none` is the struct type
literal `struct{ E_Any }`, as in `reflect.TypeOf(struct{ E_Any }{})`; it has
the methods of the embedded `E_Any`, and `Name()` of an unnamed type is the
empty string. `some t` is the type `t` of the repository. -/
def anonEnv : TypeEnv (Option RepoType) where
  Kind := fun t =>
    match t with
    | none => Kind.Struct
    | some u => repoEnv.Kind u
  Elem := fun t =>
    match t with
    | none => none
    | some u => some (repoEnv.Elem u)
  Fields := fun t =>
    match t with
    | none => [some RepoType.E_Any]
    | some u => (repoEnv.Fields u).map some
  Implements := fun t =>
    match t with
    | none => true
    | some u => repoEnv.Implements u
  Name := fun t =>
    match t with
    | none => ""
    | some u => repoEnv.Name u

/-! ## TerrorHierarchy.String -/

/-- `func (th TerrorHierarchy) String() string`. The buffer is the list of
the characters written so far; the last one written is the one-byte `,`,
which `buf.Truncate(buf.Len() - 1)` takes off. -/
def TerrorHierarchy.String (env : TypeEnv Ty) (th : TerrorHierarchy Ty) : String :=
  if th.length < 1 then "-"
  else
    let buf : List Char := th.foldl (fun buf t => (buf ++ (env.Name t).data) ++ [',']) []
    String.mk (buf.take (buf.length - 1))

/-! ## GetHierarchy calls that interleave -/

/-- A `GetHierarchy(typ)` call that has loaded the snapshot `hc`, found no
entry for `typ`, and has not reached its `Store` yet. -/
structure Pending (Ty : Type) where
  typ : Ty
  hc : HierarchyCache Ty

/-- The snapshot held by `hierachyCacheAtom` and the calls in flight. -/
structure World (Ty : Type) where
  atom : HierarchyCache Ty
  pending : List (Pending Ty)

/-- The atomic events of a run: a call of `GetHierarchy(typ)` does its `Load`
and its map read; the call in flight at position `i` goes on to its `Store`. -/
inductive Event (Ty : Type) where
  | load (typ : Ty)
  | store (i : Nat)

/-- The state after `init`: the empty map, no call in flight. -/
def World.init : World Ty :=
  { atom := HierarchyCache.make, pending := [] }

/-- One event. A `load` that hits returns at once; one that misses leaves the
call in flight with the snapshot it loaded. A `store` runs the rest of the
call in flight at `i`: `DetermineHierarchy`, the copy, the map write and the
`Store`; when `DetermineHierarchy` panics the call ends without a `Store`. -/
def World.step (env : TypeEnv Ty) (w : World Ty) : Event Ty → World Ty
  | Event.load typ =>
    match HierarchyCache.get w.atom typ with
    | some _ => w
    | none => { w with pending := w.pending ++ [{ typ := typ, hc := w.atom }] }
  | Event.store i =>
    match w.pending[i]? with
    | none => w
    | some p =>
      match DetermineHierarchy env p.typ with
      | Outcome.ret th =>
        { atom := HierarchyCache.set (HierarchyCache.copy p.hc) p.typ th,
          pending := w.pending.eraseIdx i }
      | Outcome.panicNotRooted => { w with pending := w.pending.eraseIdx i }
      | Outcome.panicReflect => { w with pending := w.pending.eraseIdx i }
      | Outcome.outOfFuel => { w with pending := w.pending.eraseIdx i }

/-- A run: the events of a schedule, one after the other. -/
def World.run (env : TypeEnv Ty) (w : World Ty) (evs : List (Event Ty)) : World Ty :=
  evs.foldl (World.step env) w

/-! ## Lemmas on the loop -/

theorem parent_some_struct (env : TypeEnv Ty) (t p : Ty) (h : parent env t = some p) :
    env.Kind t = Kind.Struct := by
  unfold parent at h
  by_cases hk : env.Kind t = Kind.Struct
  · exact hk
  · simp [hk] at h

theorem parent_some_fields (env : TypeEnv Ty) (t p : Ty) (h : parent env t = some p) :
    ∃ rest, env.Fields t = p :: rest ∧ env.Implements p = true := by
  unfold parent at h
  by_cases hk : env.Kind t = Kind.Struct
  · simp only [hk, if_true] at h
    cases hf : env.Fields t with
    | nil => simp [hf] at h
    | cons f rest =>
      simp only [hf] at h
      by_cases hi : env.Implements f = true
      · simp only [hi, if_true, Option.some.injEq] at h
        subst h
        exact ⟨rest, rfl, hi⟩
      · simp [hi] at h
  · simp [hk] at h

theorem parent_none_root (env : TypeEnv Ty) (t : Ty) (hk : env.Kind t = Kind.Struct)
    (h : parent env t = none) : IsRoot env t := by
  unfold parent at h
  simp only [hk, if_true] at h
  cases hf : env.Fields t with
  | nil => exact Or.inl hf
  | cons f rest =>
    simp only [hf] at h
    by_cases hi : env.Implements f = true
    · simp [hi] at h
    · exact Or.inr ⟨f, rest, hf, by simpa using hi⟩

/-- One iteration of the loop, in terms of `parent`. -/
theorem loop_succ (env : TypeEnv Ty) (fuel i : Nat) (hier : TerrorHierarchy Ty) (typ : Ty) :
    DetermineHierarchy.loop env (fuel + 1) i hier typ =
      if env.Kind typ = Kind.Struct then
        match parent env typ with
        | none => Outcome.ret (hier ++ [typ])
        | some p =>
          if 12 ≤ i then Outcome.panicNotRooted
          else DetermineHierarchy.loop env fuel (i + 1) (hier ++ [typ]) p
      else Outcome.panicReflect := by
  by_cases hk : env.Kind typ = Kind.Struct
  · cases hf : env.Fields typ with
    | nil => simp [DetermineHierarchy.loop, NumField, Field0Type, parent, hk, hf]
    | cons f rest =>
      by_cases hi : env.Implements f = true
      · simp [DetermineHierarchy.loop, NumField, Field0Type, parent, hk, hf, hi]
      · simp [DetermineHierarchy.loop, NumField, Field0Type, parent, hk, hf, hi]
  · simp [DetermineHierarchy.loop, NumField, hk]

theorem IsChain_ne_nil (env : TypeEnv Ty) (t : Ty) (c : List Ty) (h : IsChain env t c) :
    ∃ tl, c = t :: tl := by
  cases h
  · exact ⟨[], rfl⟩
  · exact ⟨_, rfl⟩

/-- A returning loop has appended a chain from `typ` to `hier`. -/
theorem loop_ret_chain (env : TypeEnv Ty) :
    ∀ (fuel i : Nat) (hier : TerrorHierarchy Ty) (typ : Ty) (c : TerrorHierarchy Ty),
      i ≤ 12 → DetermineHierarchy.loop env fuel i hier typ = Outcome.ret c →
      ∃ tl, c = hier ++ tl ∧ IsChain env typ tl ∧ tl.length + i ≤ 13 := by
  intro fuel
  induction fuel with
  | zero =>
    intro i hier typ c _ h
    simp [DetermineHierarchy.loop] at h
  | succ fuel ih =>
    intro i hier typ c hi h
    rw [loop_succ] at h
    by_cases hk : env.Kind typ = Kind.Struct
    · rw [if_pos hk] at h
      cases hp : parent env typ with
      | none =>
        simp only [hp, Outcome.ret.injEq] at h
        exact ⟨[typ], h.symm, IsChain.root typ hk hp, by simp; omega⟩
      | some p =>
        simp only [hp] at h
        by_cases h12 : 12 ≤ i
        · simp [h12] at h
        · rw [if_neg h12] at h
          obtain ⟨tl, hc, hch, hlen⟩ := ih (i + 1) (hier ++ [typ]) p c (by omega) h
          refine ⟨typ :: tl, ?_, IsChain.hop typ p tl hp hch, ?_⟩
          · simp [hc]
          · simp; omega
    · simp [hk] at h

/-- A chain of at most `13 - i` elements makes the loop return it. -/
theorem chain_loop_ret (env : TypeEnv Ty) (typ : Ty) (tl : List Ty) (hc : IsChain env typ tl) :
    ∀ (fuel i : Nat) (hier : TerrorHierarchy Ty), tl.length ≤ fuel → tl.length + i ≤ 13 →
      DetermineHierarchy.loop env fuel i hier typ = Outcome.ret (hier ++ tl) := by
  induction hc with
  | root t hk hp =>
    intro fuel i hier hf hi
    cases fuel with
    | zero => simp at hf
    | succ fuel =>
      rw [loop_succ]
      simp [hk, hp]
  | hop t p tl hp hc ih =>
    intro fuel i hier hf hi
    obtain ⟨tl1, htl⟩ := IsChain_ne_nil env p tl hc
    cases fuel with
    | zero => simp at hf
    | succ fuel =>
      rw [loop_succ]
      have hk := parent_some_struct env t p hp
      have h12 : ¬ 12 ≤ i := by
        subst htl
        simp at hi
        omega
      simp only [hk, if_true, hp, if_neg h12]
      rw [ih fuel (i + 1) (hier ++ [t]) (by simp at hf; omega) (by simp at hi; omega)]
      simp

/-- The loop ends in the not-rooted panic exactly when `13 - i` more parent
hops exist. -/
theorem loop_notRooted (env : TypeEnv Ty) :
    ∀ (fuel i k : Nat) (hier : TerrorHierarchy Ty) (typ : Ty),
      i + k = 13 → 1 ≤ k → k ≤ fuel →
      (DetermineHierarchy.loop env fuel i hier typ = Outcome.panicNotRooted
        ↔ (ancestor env k typ).isSome = true) := by
  intro fuel
  induction fuel with
  | zero =>
    intro i k hier typ _ h1 h2
    omega
  | succ fuel ih =>
    intro i k hier typ hik h1 h2
    obtain ⟨k1, rfl⟩ : ∃ k1, k = k1 + 1 := ⟨k - 1, by omega⟩
    rw [loop_succ]
    by_cases hk : env.Kind typ = Kind.Struct
    · rw [if_pos hk]
      cases hp : parent env typ with
      | none => simp [ancestor, hp]
      | some p =>
        simp only [ancestor, hp, Option.some_bind]
        by_cases h12 : 12 ≤ i
        · have : k1 = 0 := by omega
          subst this
          simp [h12, ancestor]
        · rw [if_neg h12]
          exact ih (i + 1) k1 (hier ++ [typ]) p (by omega) (by omega) (by omega)
    · have hp : parent env typ = none := by simp [parent, hk]
      simp [hk, ancestor, hp]

/-- Thirteen units of fuel are never used up. -/
theorem loop_fuel (env : TypeEnv Ty) :
    ∀ (fuel i : Nat) (hier : TerrorHierarchy Ty) (typ : Ty),
      i ≤ 12 → 13 ≤ fuel + i →
      DetermineHierarchy.loop env fuel i hier typ ≠ Outcome.outOfFuel := by
  intro fuel
  induction fuel with
  | zero =>
    intro i hier typ h1 h2
    omega
  | succ fuel ih =>
    intro i hier typ h1 h2
    rw [loop_succ]
    by_cases hk : env.Kind typ = Kind.Struct
    · rw [if_pos hk]
      cases hp : parent env typ with
      | none => simp
      | some p =>
        by_cases h12 : 12 ≤ i
        · simp [h12]
        · simp only [if_neg h12]
          exact ih (i + 1) (hier ++ [typ]) p (by omega) (by omega)
    · simp [hk]

/-- `DetermineHierarchy` returns `c` exactly when `c` is the chain of `typ`
and has at most 13 elements. -/
theorem DetermineHierarchy_ret_iff (env : TypeEnv Ty) (typ : Ty) (c : TerrorHierarchy Ty) :
    DetermineHierarchy env typ = Outcome.ret c ↔ (IsChain env typ c ∧ c.length ≤ 13) := by
  constructor
  · intro h
    obtain ⟨tl, hc, hch, hlen⟩ := loop_ret_chain env 13 0 [] typ c (by omega) h
    simp at hc
    subst hc
    exact ⟨hch, by omega⟩
  · rintro ⟨hch, hlen⟩
    have := chain_loop_ret env typ c hch 13 0 [] hlen (by omega)
    simpa [DetermineHierarchy] using this

theorem DetermineHierarchy_notRooted_iff (env : TypeEnv Ty) (typ : Ty) :
    DetermineHierarchy env typ = Outcome.panicNotRooted
      ↔ (ancestor env 13 typ).isSome = true :=
  loop_notRooted env 13 0 13 [] typ (by omega) (by omega) (by omega)

theorem DetermineHierarchy_fuel (env : TypeEnv Ty) (typ : Ty) :
    DetermineHierarchy env typ ≠ Outcome.outOfFuel :=
  loop_fuel env 13 0 [] typ (by omega) (by omega)

/-! ## Lemmas on chains -/

theorem IsChain_unique (env : TypeEnv Ty) (t : Ty) (c : List Ty) (h : IsChain env t c) :
    ∀ c1, IsChain env t c1 → c = c1 := by
  induction h with
  | root t hk hp =>
    intro c1 h1
    cases h1 with
    | root _ _ _ => rfl
    | hop _ p1 tl1 hp1 hc1 => rw [hp] at hp1; cases hp1
  | hop t p tl hp hc ih =>
    intro c1 h1
    cases h1 with
    | root _ _ hp1 => rw [hp] at hp1; cases hp1
    | hop _ p1 tl1 hp1 hc1 =>
      rw [hp] at hp1
      cases hp1
      rw [ih tl1 hc1]

theorem IsChain_suffix (env : TypeEnv Ty) (t : Ty) (c : List Ty) (h : IsChain env t c) :
    ∀ x, x ∈ c → ∃ pre s, c = pre ++ s ∧ IsChain env x s := by
  induction h with
  | root t hk hp =>
    intro x hx
    simp at hx
    subst hx
    exact ⟨[], [x], rfl, IsChain.root x hk hp⟩
  | hop t p tl hp hc ih =>
    intro x hx
    rcases List.mem_cons.mp hx with rfl | hx1
    · exact ⟨[], x :: tl, rfl, IsChain.hop x p tl hp hc⟩
    · obtain ⟨pre, s, hps, hs⟩ := ih x hx1
      exact ⟨t :: pre, s, by rw [hps]; rfl, hs⟩

theorem IsChain_nodup (env : TypeEnv Ty) (t : Ty) (c : List Ty) (h : IsChain env t c) :
    c.Nodup := by
  induction h with
  | root t hk hp => simp
  | hop t p tl hp hc ih =>
    refine List.nodup_cons.mpr ⟨?_, ih⟩
    intro hmem
    obtain ⟨pre, s, hps, hs⟩ := IsChain_suffix env p tl hc t hmem
    have hst := IsChain_unique env t s hs (t :: tl) (IsChain.hop t p tl hp hc)
    subst hst
    have := congrArg List.length hps
    simp at this
    omega

theorem IsChain_struct (env : TypeEnv Ty) (t : Ty) (c : List Ty) (h : IsChain env t c) :
    ∀ x, x ∈ c → env.Kind x = Kind.Struct := by
  induction h with
  | root t hk hp =>
    intro x hx
    simp at hx
    subst hx
    exact hk
  | hop t p tl hp hc ih =>
    intro x hx
    rcases List.mem_cons.mp hx with rfl | hx1
    · exact parent_some_struct env x p hp
    · exact ih x hx1

/-- Successive elements of a chain are linked by a parent hop. -/
theorem IsChain_link (env : TypeEnv Ty) (t : Ty) (ch : List Ty) (h : IsChain env t ch) :
    ∀ (i : Nat) (a b : Ty), ch[i]? = some a → ch[i + 1]? = some b → parent env a = some b := by
  induction h with
  | root t hk hp =>
    intro i a b _ hb
    simp at hb
  | hop t p tl hp hc ih =>
    intro i a b ha hb
    obtain ⟨tl1, rfl⟩ := IsChain_ne_nil env p tl hc
    cases i with
    | zero =>
      simp at ha hb
      subst ha
      subst hb
      exact hp
    | succ i =>
      rw [List.getElem?_cons_succ] at ha hb
      exact ih i a b ha hb

/-- The last element of a chain is a struct type that is a root. -/
theorem IsChain_last (env : TypeEnv Ty) (t : Ty) (c : List Ty) (h : IsChain env t c) :
    ∀ l, c.getLast? = some l → env.Kind l = Kind.Struct ∧ parent env l = none := by
  induction h with
  | root t hk hp =>
    intro l hl
    simp at hl
    subst hl
    exact ⟨hk, hp⟩
  | hop t p tl hp hc ih =>
    intro l hl
    obtain ⟨tl1, rfl⟩ := IsChain_ne_nil env p tl hc
    rw [List.getLast?_cons_cons] at hl
    exact ih l hl

/-! ## Lemmas on the cache -/

theorem get_none_iff (hc : HierarchyCache Ty) (k : Ty) :
    HierarchyCache.get hc k = none ↔ k ∉ hc.map Prod.fst := by
  induction hc with
  | nil => simp [HierarchyCache.get]
  | cons e rest ih =>
    obtain ⟨k1, v1⟩ := e
    by_cases h : k1 = k
    · simp [HierarchyCache.get, h]
    · have h1 : ¬ k = k1 := fun e => h e.symm
      simp [HierarchyCache.get, h, h1, ih]

theorem set_not_mem (hc : HierarchyCache Ty) (k : Ty) (v : TerrorHierarchy Ty)
    (h : k ∉ hc.map Prod.fst) : HierarchyCache.set hc k v = hc ++ [(k, v)] := by
  induction hc with
  | nil => simp [HierarchyCache.set]
  | cons e rest ih =>
    obtain ⟨k1, v1⟩ := e
    simp only [List.map_cons, List.mem_cons, not_or] at h
    have h1 : ¬ k1 = k := fun e => h.1 e.symm
    simp [HierarchyCache.set, h1, ih h.2]

theorem foldl_set_nodup :
    ∀ (hc acc : HierarchyCache Ty), ((acc ++ hc).map Prod.fst).Nodup →
      hc.foldl (fun next kv => HierarchyCache.set next kv.1 kv.2) acc = acc ++ hc := by
  intro hc
  induction hc with
  | nil => intro acc _; simp
  | cons e rest ih =>
    intro acc h
    obtain ⟨k1, v1⟩ := e
    have hk : k1 ∉ acc.map Prod.fst := by
      simp only [List.map_append, List.map_cons] at h
      have h2 := (List.nodup_append.mp h).2.2
      intro hmem
      exact h2 hmem (List.mem_cons_self _ _)
    simp only [List.foldl_cons]
    rw [set_not_mem acc k1 v1 hk]
    rw [ih (acc ++ [(k1, v1)]) (by simpa using h)]
    simp

theorem copy_eq (hc : HierarchyCache Ty) (h : (hc.map Prod.fst).Nodup) :
    HierarchyCache.copy hc = hc := by
  have := foldl_set_nodup hc [] (by simpa using h)
  simpa [HierarchyCache.copy, HierarchyCache.make] using this

theorem get_append_single (hc : HierarchyCache Ty) (k : Ty) (v : TerrorHierarchy Ty) (k1 : Ty) :
    HierarchyCache.get (hc ++ [(k, v)]) k1 =
      match HierarchyCache.get hc k1 with
      | some th => some th
      | none => if k = k1 then some v else none := by
  induction hc with
  | nil => simp [HierarchyCache.get]
  | cons e rest ih =>
    obtain ⟨k2, v2⟩ := e
    by_cases h : k2 = k1
    · simp [HierarchyCache.get, h]
    · simp [HierarchyCache.get, h, ih]

/-- What a miss followed by a returning discovery stores, on a map without
duplicate keys. -/
theorem store_eq (hc : HierarchyCache Ty) (typ : Ty) (th : TerrorHierarchy Ty)
    (hn : (hc.map Prod.fst).Nodup) (hg : HierarchyCache.get hc typ = none) :
    HierarchyCache.set (HierarchyCache.copy hc) typ th = hc ++ [(typ, th)] := by
  rw [copy_eq hc hn]
  exact set_not_mem hc typ th ((get_none_iff hc typ).mp hg)

/-- Every reachable snapshot has one entry per key, and each entry holds
what `DetermineHierarchy` returns on its key. -/
theorem Reachable_inv (env : TypeEnv Ty) (hc : HierarchyCache Ty) (h : Reachable env hc) :
    (hc.map Prod.fst).Nodup ∧
      ∀ k th, HierarchyCache.get hc k = some th → DetermineHierarchy env k = Outcome.ret th := by
  induction h with
  | init => simp [HierarchyCache.make, HierarchyCache.get]
  | call typ hc hr ih =>
    cases hg : HierarchyCache.get hc typ with
    | some th => simpa [GetHierarchy, hg] using ih
    | none =>
      cases hd : DetermineHierarchy env typ with
      | ret th =>
        have hs := store_eq hc typ th ih.1 hg
        simp only [GetHierarchy, hg, hd, hs]
        constructor
        · simp only [List.map_append, List.map_cons, List.map_nil]
          refine List.Nodup.append ih.1 (by simp) ?_
          simpa using (get_none_iff hc typ).mp hg
        · intro k th1 hk
          rw [get_append_single] at hk
          cases hgk : HierarchyCache.get hc k with
          | some th2 =>
            simp only [hgk, Option.some.injEq] at hk
            subst hk
            exact ih.2 k th2 hgk
          | none =>
            simp only [hgk] at hk
            by_cases hkk : typ = k
            · simp only [hkk, if_true, Option.some.injEq] at hk
              subst hk
              subst hkk
              exact hd
            · simp [hkk] at hk
      | panicNotRooted => simpa [GetHierarchy, hg, hd] using ih
      | panicReflect => simpa [GetHierarchy, hg, hd] using ih
      | outOfFuel => simpa [GetHierarchy, hg, hd] using ih

/-- On a reachable snapshot `GetHierarchy` has the outcome of
`DetermineHierarchy`. -/
theorem GetHierarchy_fst (env : TypeEnv Ty) (typ : Ty) (hc : HierarchyCache Ty)
    (h : Reachable env hc) : (GetHierarchy env typ hc).1 = DetermineHierarchy env typ := by
  have ih := Reachable_inv env hc h
  cases hg : HierarchyCache.get hc typ with
  | some th => simp [GetHierarchy, hg, ih.2 typ th hg]
  | none =>
    cases hd : DetermineHierarchy env typ <;> simp [GetHierarchy, hg, hd]

theorem scan_iff (heir : TerrorHierarchy Ty) (type2 : Ty) :
    scan heir type2 = true ↔ type2 ∈ heir := by
  induction heir with
  | nil => simp [scan]
  | cons t rest ih =>
    by_cases h : t = type2
    · simp [scan, h]
    · have h1 : ¬ type2 = t := fun e => h e.symm
      simp [scan, h, h1, ih]

/-- The outcome of `Is` on non-nil operands, from the outcome of
`GetHierarchy`. -/
theorem Is_fst (env : TypeEnv Ty) (d1 d2 : Ty) (hc : HierarchyCache Ty) :
    (Is env (some d1) (some d2) hc).1 =
      match (GetHierarchy env (stripPtr env d1) hc).1 with
      | Outcome.ret heir => Outcome.ret (scan heir (stripPtr env d2))
      | Outcome.panicNotRooted => Outcome.panicNotRooted
      | Outcome.panicReflect => Outcome.panicReflect
      | Outcome.outOfFuel => Outcome.outOfFuel := by
  simp only [Is]
  rcases hgh : GetHierarchy env (stripPtr env d1) hc with ⟨o, a⟩
  cases o <;> rfl

/-! ## Lemmas on parent walks -/

theorem ancestor_succ_last (env : TypeEnv Ty) :
    ∀ (n : Nat) (t : Ty), ancestor env (n + 1) t = (ancestor env n t).bind (parent env) := by
  intro n
  induction n with
  | zero =>
    intro t
    cases hp : parent env t <;> simp [ancestor, hp]
  | succ n ih =>
    intro t
    cases hp : parent env t with
    | none => simp [ancestor, hp]
    | some p =>
      have h1 : ancestor env (n + 1 + 1) t = ancestor env (n + 1) p := by
        simp [ancestor, hp]
      have h2 : ancestor env (n + 1) t = ancestor env n p := by
        simp [ancestor, hp]
      rw [h1, h2, ih p]

theorem ancestor_add (env : TypeEnv Ty) :
    ∀ (a b : Nat) (t : Ty), ancestor env (a + b) t = (ancestor env a t).bind (ancestor env b) := by
  intro a
  induction a with
  | zero =>
    intro b t
    simp [ancestor]
  | succ a ih =>
    intro b t
    have h : a + 1 + b = (a + b) + 1 := by omega
    rw [h]
    cases hp : parent env t with
    | none => simp [ancestor, hp]
    | some p => simp [ancestor, hp, ih b p]

theorem ancestor_isSome_mono (env : TypeEnv Ty) (t : Ty) :
    ∀ (n m : Nat), m ≤ n → (ancestor env n t).isSome = true → (ancestor env m t).isSome = true := by
  intro n
  induction n with
  | zero =>
    intro m hm _
    have : m = 0 := by omega
    subst this
    simp [ancestor]
  | succ n ih =>
    intro m hm h
    by_cases hmn : m = n + 1
    · subst hmn
      exact h
    · apply ih m (by omega)
      rw [ancestor_succ_last] at h
      cases ha : ancestor env n t with
      | none => simp [ha] at h
      | some x => simp

/-- A walk of `n` hops that ends on a struct type that is a root is a chain
of `n + 1` elements. -/
theorem ancestor_chain (env : TypeEnv Ty) :
    ∀ (n : Nat) (t r : Ty), ancestor env n t = some r → env.Kind r = Kind.Struct →
      parent env r = none → ∃ ch, IsChain env t ch ∧ ch.length = n + 1 := by
  intro n
  induction n with
  | zero =>
    intro t r h hk hp
    simp [ancestor] at h
    subst h
    exact ⟨[t], IsChain.root t hk hp, rfl⟩
  | succ n ih =>
    intro t r h hk hp
    cases hpt : parent env t with
    | none => simp [ancestor, hpt] at h
    | some p =>
      simp only [ancestor, hpt, Option.some_bind] at h
      obtain ⟨ch, hch, hlen⟩ := ih p r h hk hp
      exact ⟨t :: ch, IsChain.hop t p ch hpt hch, by simp [hlen]⟩

theorem revisits_unbounded (env : TypeEnv Ty) (T : Ty) (h : Revisits env T) :
    ∀ n, (ancestor env n T).isSome = true := by
  obtain ⟨i, j, x, hij, hi, hj⟩ := h
  obtain ⟨d, rfl⟩ : ∃ d, j = i + (d + 1) := ⟨j - i - 1, by omega⟩
  have hcyc : ancestor env (d + 1) x = some x := by
    rw [ancestor_add, hi] at hj
    simpa using hj
  have hrep : ∀ m, ancestor env (m * (d + 1)) x = some x := by
    intro m
    induction m with
    | zero => simp [ancestor]
    | succ m ihm =>
      have : (m + 1) * (d + 1) = m * (d + 1) + (d + 1) := by ring
      rw [this, ancestor_add, ihm]
      simpa using hcyc
  intro n
  have hbig : ancestor env (i + n * (d + 1)) T = some x := by
    rw [ancestor_add, hi]
    simpa using hrep n
  apply ancestor_isSome_mono env T (i + n * (d + 1)) n
  · nlinarith
  · simp [hbig]

/-! ## The relationship test -/

/-- C1: on every reachable snapshot and for non-nil operands of dynamic types
`this` and `that`, `Is` returns true exactly when `DetermineHierarchy` of the
stripped type of `this` returns a chain in which the stripped type of `that`
occurs; in particular, when the chain of `T2` contains `T1`, `Is` returns
true on an instance of `T2` and an instance of `T1`. -/
theorem Is_true_iff_mem_chain (env : TypeEnv Ty) (hc : HierarchyCache Ty)
    (hr : Reachable env hc) (this that : Ty) :
    ((Is env (some this) (some that) hc).1 = Outcome.ret true ↔
        ∃ ch, DetermineHierarchy env (stripPtr env this) = Outcome.ret ch ∧
          stripPtr env that ∈ ch) ∧
    (∀ T1 T2 ch, DetermineHierarchy env T2 = Outcome.ret ch → T1 ∈ ch →
        InstanceOf env this T2 → InstanceOf env that T1 →
        (Is env (some this) (some that) hc).1 = Outcome.ret true) := by
  have hiff : (Is env (some this) (some that) hc).1 = Outcome.ret true ↔
      ∃ ch, DetermineHierarchy env (stripPtr env this) = Outcome.ret ch ∧
        stripPtr env that ∈ ch := by
    rw [Is_fst, GetHierarchy_fst env _ hc hr]
    cases hd : DetermineHierarchy env (stripPtr env this) with
    | ret ch => simp [scan_iff]
    | panicNotRooted => simp
    | panicReflect => simp
    | outOfFuel => simp
  refine ⟨hiff, ?_⟩
  intro T1 T2 ch hd hmem hi2 hi1
  have hch := ((DetermineHierarchy_ret_iff env T2 ch).mp hd).1
  have hk1 : env.Kind T1 = Kind.Struct := IsChain_struct env T2 ch hch T1 hmem
  have hk2 : env.Kind T2 = Kind.Struct := by
    obtain ⟨tl, rfl⟩ := IsChain_ne_nil env T2 ch hch
    exact IsChain_struct env T2 _ hch T2 (List.mem_cons_self _ _)
  have hs2 : stripPtr env this = T2 := by
    rcases hi2 with rfl | ⟨hp, he⟩
    · simp [stripPtr, hk2]
    · simp [stripPtr, hp, he]
  have hs1 : stripPtr env that = T1 := by
    rcases hi1 with rfl | ⟨hp, he⟩
    · simp [stripPtr, hk1]
    · simp [stripPtr, hp, he]
  exact hiff.mpr ⟨ch, by rw [hs2]; exact hd, by rw [hs1]; exact hmem⟩

/-- Witness of C1: after a first call has cached `E_IO`, a `*E_Network` is a
`E_Any`, whose type is in the chain of `E_Network`. -/
theorem Is_true_iff_mem_chain_witness :
    (Is repoEnv (some (RepoType.ptr RepoType.E_Network)) (some RepoType.E_Any)
        (GetHierarchy repoEnv RepoType.E_IO HierarchyCache.make).2).1 = Outcome.ret true :=
  (Is_true_iff_mem_chain repoEnv (GetHierarchy repoEnv RepoType.E_IO HierarchyCache.make).2
      (Reachable.call RepoType.E_IO HierarchyCache.make Reachable.init)
      (RepoType.ptr RepoType.E_Network) RepoType.E_Any).2
    RepoType.E_Any RepoType.E_Network [RepoType.E_Network, RepoType.E_IO, RepoType.E_Any]
    (by decide) (by decide) (Or.inr ⟨by decide, by decide⟩) (Or.inl rfl)

/-! ## The discovered chain -/

/-- C2: when `DetermineHierarchy` returns on `T`, the chain starts with `T`,
each element but the last is a struct type with a first field whose type is
the next element and implements `Terror`, and the last element is a root: it
has no fields or the type of its first field does not implement `Terror`. -/
theorem DetermineHierarchy_chain_shape (env : TypeEnv Ty) (T : Ty) (ch : TerrorHierarchy Ty)
    (h : DetermineHierarchy env T = Outcome.ret ch) :
    ch[0]? = some T ∧
    (∀ (i : Nat) (a b : Ty), ch[i]? = some a → ch[i + 1]? = some b →
        (env.Fields a).head? = some b ∧ env.Implements b = true) ∧
    (∀ l, ch.getLast? = some l → IsRoot env l) := by
  have hch := ((DetermineHierarchy_ret_iff env T ch).mp h).1
  refine ⟨?_, ?_, ?_⟩
  · obtain ⟨tl, rfl⟩ := IsChain_ne_nil env T ch hch
    simp
  · intro i a b ha hb
    have hp := IsChain_link env T ch hch i a b ha hb
    obtain ⟨rest, hf, hi⟩ := parent_some_fields env a b hp
    exact ⟨by simp [hf], hi⟩
  · intro l hl
    obtain ⟨hk, hp⟩ := IsChain_last env T ch hch l hl
    exact parent_none_root env l hk hp

/-- Witness of C2: `E_Network` yields `[E_Network, E_IO, E_Any]`, linked
by first fields and ending on the root `E_Any`. -/
theorem DetermineHierarchy_chain_shape_witness :
    DetermineHierarchy repoEnv RepoType.E_Network
        = Outcome.ret [RepoType.E_Network, RepoType.E_IO, RepoType.E_Any] ∧
    (repoEnv.Fields RepoType.E_Network).head? = some RepoType.E_IO ∧
    repoEnv.Implements RepoType.E_IO = true ∧
    IsRoot repoEnv RepoType.E_Any :=
  ⟨by decide,
   ((DetermineHierarchy_chain_shape repoEnv RepoType.E_Network
      [RepoType.E_Network, RepoType.E_IO, RepoType.E_Any] (by decide)).2.1
      0 RepoType.E_Network RepoType.E_IO rfl rfl).1,
   ((DetermineHierarchy_chain_shape repoEnv RepoType.E_Network
      [RepoType.E_Network, RepoType.E_IO, RepoType.E_Any] (by decide)).2.1
      0 RepoType.E_Network RepoType.E_IO rfl rfl).2,
   (DetermineHierarchy_chain_shape repoEnv RepoType.E_Network
      [RepoType.E_Network, RepoType.E_IO, RepoType.E_Any] (by decide)).2.2
      RepoType.E_Any rfl⟩

/-! ## The cache -/

/-- C3: in every reachable snapshot each entry holds what `DetermineHierarchy`
returns on its key, so `GetHierarchy` has the outcome of `DetermineHierarchy`
on a hit and on a miss, and two calls on the same type from any two reachable
snapshots have the same outcome. -/
theorem GetHierarchy_transparent (env : TypeEnv Ty) (hc : HierarchyCache Ty)
    (hr : Reachable env hc) :
    (∀ k th, HierarchyCache.get hc k = some th → DetermineHierarchy env k = Outcome.ret th) ∧
    (∀ T, (GetHierarchy env T hc).1 = DetermineHierarchy env T) ∧
    (∀ T hc2, Reachable env hc2 → (GetHierarchy env T hc).1 = (GetHierarchy env T hc2).1) :=
  ⟨(Reachable_inv env hc hr).2,
   fun T => GetHierarchy_fst env T hc hr,
   fun T hc2 hr2 => by rw [GetHierarchy_fst env T hc hr, GetHierarchy_fst env T hc2 hr2]⟩

/-- Witness of C3: a hit on `E_Network` after two calls and a miss on the
empty cache return the same chain. -/
theorem GetHierarchy_transparent_witness :
    (GetHierarchy repoEnv RepoType.E_Network
        (GetHierarchy repoEnv RepoType.E_Network
          (GetHierarchy repoEnv RepoType.E_IO HierarchyCache.make).2).2).1
      = (GetHierarchy repoEnv RepoType.E_Network HierarchyCache.make).1 :=
  (GetHierarchy_transparent repoEnv
      (GetHierarchy repoEnv RepoType.E_Network
        (GetHierarchy repoEnv RepoType.E_IO HierarchyCache.make).2).2
      (Reachable.call RepoType.E_Network _
        (Reachable.call RepoType.E_IO HierarchyCache.make Reachable.init))).2.2
    RepoType.E_Network HierarchyCache.make Reachable.init

/-- C4: `Is` returns false when either operand is nil, whatever the other
operand is (also one on whose type discovery panics), and the snapshot held
by the atom is the one held before. -/
theorem Is_nil (env : TypeEnv Ty) (hc : HierarchyCache Ty) :
    (∀ that, Is env none that hc = (Outcome.ret false, hc)) ∧
    (∀ this, Is env this none hc = (Outcome.ret false, hc)) ∧
    Is env none none hc = (Outcome.ret false, hc) := by
  refine ⟨fun that => rfl, fun this => ?_, rfl⟩
  cases this <;> rfl

/-! ## Relational properties of Is -/

theorem stripPtr_instance (env : TypeEnv Ty) (d T : Ty) (hk : env.Kind T = Kind.Struct)
    (hi : InstanceOf env d T) : stripPtr env d = T := by
  rcases hi with rfl | ⟨hp, he⟩
  · simp [stripPtr, hk]
  · simp [stripPtr, hp, he]

theorem ancestor_some_struct (env : TypeEnv Ty) (n : Nat) (T : Ty)
    (h : (ancestor env (n + 1) T).isSome = true) : env.Kind T = Kind.Struct := by
  cases hp : parent env T with
  | none => simp [ancestor, hp] at h
  | some p => exact parent_some_struct env T p hp

/-- C5, the claim as stated fails: `T13` of the tower implements `Terror`,
and `Is` on a `T13` and itself ends in the not-rooted panic. -/
theorem Is_refl_counterexample :
    deepEnv.Implements 13 = true ∧
    (Is deepEnv (some 13) (some 13) HierarchyCache.make).1 = Outcome.panicNotRooted ∧
    (Is deepEnv (some 13) (some 13) HierarchyCache.make).1 ≠ Outcome.ret true := by
  decide

/-- C5, amended: on every reachable snapshot, for every type `T` on which
`DetermineHierarchy` returns and every instance `d` of `T`, `Is` on the
instance and itself returns true; for a type `T` with 13 parent hops or more
it ends in the not-rooted panic. -/
theorem Is_refl_of_returns (env : TypeEnv Ty) (hc : HierarchyCache Ty)
    (hr : Reachable env hc) (T d : Ty) (hi : InstanceOf env d T) :
    (∀ ch, DetermineHierarchy env T = Outcome.ret ch →
        (Is env (some d) (some d) hc).1 = Outcome.ret true) ∧
    ((ancestor env 13 T).isSome = true →
        (Is env (some d) (some d) hc).1 = Outcome.panicNotRooted) := by
  constructor
  · intro ch hd
    have hch := ((DetermineHierarchy_ret_iff env T ch).mp hd).1
    obtain ⟨tl, rfl⟩ := IsChain_ne_nil env T ch hch
    have hk : env.Kind T = Kind.Struct :=
      IsChain_struct env T _ hch T (List.mem_cons_self _ _)
    have hs := stripPtr_instance env d T hk hi
    rw [Is_fst, GetHierarchy_fst env _ hc hr, hs, hd]
    simp [scan]
  · intro h13
    have hk : env.Kind T = Kind.Struct := ancestor_some_struct env 12 T h13
    have hs := stripPtr_instance env d T hk hi
    rw [Is_fst, GetHierarchy_fst env _ hc hr, hs,
      (DetermineHierarchy_notRooted_iff env T).mpr h13]

/-- Witness of amended C5: a `*E_IO` is a `*E_IO`. -/
theorem Is_refl_of_returns_witness :
    (Is repoEnv (some (RepoType.ptr RepoType.E_IO)) (some (RepoType.ptr RepoType.E_IO))
        HierarchyCache.make).1 = Outcome.ret true :=
  (Is_refl_of_returns repoEnv HierarchyCache.make Reachable.init RepoType.E_IO
      (RepoType.ptr RepoType.E_IO) (Or.inr ⟨by decide, by decide⟩)).1
    [ RepoType.E_IO, RepoType.E_Any] (by decide)

/-- C6: on every reachable snapshot, when `T1` differs from `T2` and occurs
in the chain `DetermineHierarchy` returns on `T2`, `Is` on an instance of
`T1` and an instance of `T2` returns false. -/
theorem Is_asymm (env : TypeEnv Ty) (hc : HierarchyCache Ty) (hr : Reachable env hc)
    (T1 T2 d1 d2 : Ty) (ch : TerrorHierarchy Ty) (hne : T1 ≠ T2)
    (hd : DetermineHierarchy env T2 = Outcome.ret ch) (hmem : T1 ∈ ch)
    (hi1 : InstanceOf env d1 T1) (hi2 : InstanceOf env d2 T2) :
    (Is env (some d1) (some d2) hc).1 = Outcome.ret false := by
  obtain ⟨hch, hlen⟩ := (DetermineHierarchy_ret_iff env T2 ch).mp hd
  obtain ⟨tl, rfl⟩ := IsChain_ne_nil env T2 ch hch
  have hk1 : env.Kind T1 = Kind.Struct := IsChain_struct env T2 _ hch T1 hmem
  have hk2 : env.Kind T2 = Kind.Struct :=
    IsChain_struct env T2 _ hch T2 (List.mem_cons_self _ _)
  have hnd := IsChain_nodup env T2 _ hch
  obtain ⟨pre, s, hps, hs⟩ := IsChain_suffix env T2 _ hch T1 hmem
  obtain ⟨s1, rfl⟩ := IsChain_ne_nil env T1 s hs
  have hnot : T2 ∉ T1 :: s1 := by
    cases pre with
    | nil =>
      simp only [List.nil_append, List.cons.injEq] at hps
      exact absurd hps.1.symm hne
    | cons x pre1 =>
      simp only [List.cons_append, List.cons.injEq] at hps
      have h2 := (List.nodup_cons.mp hnd).1
      rw [hps.2] at h2
      intro hin
      exact h2 (List.mem_append_right _ hin)
  have hlen1 : (T1 :: s1).length ≤ 13 := by
    have := congrArg List.length hps
    simp at this
    simp at hlen
    simp
    omega
  have hd1 : DetermineHierarchy env T1 = Outcome.ret (T1 :: s1) :=
    (DetermineHierarchy_ret_iff env T1 _).mpr ⟨hs, hlen1⟩
  rw [Is_fst, GetHierarchy_fst env _ hc hr, stripPtr_instance env d1 T1 hk1 hi1,
    stripPtr_instance env d2 T2 hk2 hi2, hd1]
  have hsc : scan (T1 :: s1) T2 = false := by
    cases hsv : scan (T1 :: s1) T2 with
    | false => rfl
    | true => exact absurd ((scan_iff _ _).mp hsv) hnot
  simp [hsc]

/-- Witness of C6: a `E_IO` is not a `E_Network`. -/
theorem Is_asymm_witness :
    (Is repoEnv (some RepoType.E_IO) (some RepoType.E_Network) HierarchyCache.make).1
      = Outcome.ret false :=
  Is_asymm repoEnv HierarchyCache.make Reachable.init RepoType.E_IO RepoType.E_Network
    RepoType.E_IO RepoType.E_Network [RepoType.E_Network, RepoType.E_IO, RepoType.E_Any]
    (by decide) (by decide) (by decide) (Or.inl rfl) (Or.inl rfl)

/-- C7: for operand types `A` and `B` that are not pointer types, and the
pointer types `pA` to `A` and `pB` to `B`, `Is` has the same outcome on the
four combinations of a value or a pointer as subject and as target, from any
reachable snapshots. -/
theorem Is_ptr_invariant (env : TypeEnv Ty) (A B pA pB : Ty)
    (hA : env.Kind A ≠ Kind.Ptr) (hB : env.Kind B ≠ Kind.Ptr)
    (hpA : env.Kind pA = Kind.Ptr ∧ env.Elem pA = A)
    (hpB : env.Kind pB = Kind.Ptr ∧ env.Elem pB = B)
    (hc1 hc2 hc3 hc4 : HierarchyCache Ty)
    (hr1 : Reachable env hc1) (hr2 : Reachable env hc2)
    (hr3 : Reachable env hc3) (hr4 : Reachable env hc4) :
    (Is env (some A) (some B) hc1).1 = (Is env (some pA) (some B) hc2).1 ∧
    (Is env (some A) (some B) hc1).1 = (Is env (some A) (some pB) hc3).1 ∧
    (Is env (some A) (some B) hc1).1 = (Is env (some pA) (some pB) hc4).1 := by
  have sA : stripPtr env A = A := by simp [stripPtr, hA]
  have sB : stripPtr env B = B := by simp [stripPtr, hB]
  have spA : stripPtr env pA = A := by simp [stripPtr, hpA.1, hpA.2]
  have spB : stripPtr env pB = B := by simp [stripPtr, hpB.1, hpB.2]
  refine ⟨?_, ?_, ?_⟩
  · rw [Is_fst, Is_fst, GetHierarchy_fst env _ hc1 hr1, GetHierarchy_fst env _ hc2 hr2,
      sA, sB, spA]
  · rw [Is_fst, Is_fst, GetHierarchy_fst env _ hc1 hr1, GetHierarchy_fst env _ hc3 hr3,
      sA, sB, spB]
  · rw [Is_fst, Is_fst, GetHierarchy_fst env _ hc1 hr1, GetHierarchy_fst env _ hc4 hr4,
      sA, sB, spA, spB]

/-- Witness of C7: `E_Network{}` against `E_Any{}`, and with `&` on either
side or both. -/
theorem Is_ptr_invariant_witness :
    (Is repoEnv (some RepoType.E_Network) (some RepoType.E_Any) HierarchyCache.make).1
      = (Is repoEnv (some (RepoType.ptr RepoType.E_Network)) (some RepoType.E_Any)
          HierarchyCache.make).1 ∧
    (Is repoEnv (some RepoType.E_Network) (some RepoType.E_Any) HierarchyCache.make).1
      = (Is repoEnv (some RepoType.E_Network) (some (RepoType.ptr RepoType.E_Any))
          HierarchyCache.make).1 ∧
    (Is repoEnv (some RepoType.E_Network) (some RepoType.E_Any) HierarchyCache.make).1
      = (Is repoEnv (some (RepoType.ptr RepoType.E_Network))
          (some (RepoType.ptr RepoType.E_Any)) HierarchyCache.make).1 :=
  Is_ptr_invariant repoEnv RepoType.E_Network RepoType.E_Any
    (RepoType.ptr RepoType.E_Network) (RepoType.ptr RepoType.E_Any)
    (by decide) (by decide) ⟨by decide, by decide⟩ ⟨by decide, by decide⟩
    HierarchyCache.make HierarchyCache.make HierarchyCache.make HierarchyCache.make
    Reachable.init Reachable.init Reachable.init Reachable.init

/-! ## The depth ceiling -/

/-- C8, the code at the failing input: `P13` of the tower over a pointer has
exactly 12 parent hops, the twelfth reaching the pointer type `*R`, which has
no fields. The claim gives a chain of 13 elements and no panic; the code
calls `NumField` on `*R`, which panics inside package `reflect`, so it
neither returns a chain of 13 elements nor ends in the not-rooted panic. -/
theorem DetermineHierarchy_ptr_parent_panics :
    ancestor ptrRootEnv 12 13 = some 1 ∧
    ancestor ptrRootEnv 13 13 = none ∧
    DetermineHierarchy ptrRootEnv 13 = Outcome.panicReflect ∧
    ¬ (∃ ch, DetermineHierarchy ptrRootEnv 13 = Outcome.ret ch ∧ ch.length = 13) := by
  refine ⟨by decide, by decide, by decide, ?_⟩
  rintro ⟨ch, h, _⟩
  have h1 : DetermineHierarchy ptrRootEnv 13 = Outcome.panicReflect := by decide
  rw [h1] at h
  cases h

/-- The depth ceiling where the walk stays on struct types:
`DetermineHierarchy` ends in the not-rooted panic exactly when `T` has at
least 13 successive parent hops; a type with exactly 12 parent hops, the
twelfth reaching a struct type, makes it return a chain of 13 elements; a
type with 13 hops or more makes it panic. -/
theorem DetermineHierarchy_depth (env : TypeEnv Ty) (T : Ty) :
    (DetermineHierarchy env T = Outcome.panicNotRooted ↔ (ancestor env 13 T).isSome = true) ∧
    (∀ r, ancestor env 12 T = some r → env.Kind r = Kind.Struct → ancestor env 13 T = none →
        ∃ ch, DetermineHierarchy env T = Outcome.ret ch ∧ ch.length = 13) ∧
    (∀ n, 13 ≤ n → (ancestor env n T).isSome = true →
        DetermineHierarchy env T = Outcome.panicNotRooted) := by
  refine ⟨DetermineHierarchy_notRooted_iff env T, ?_, ?_⟩
  · intro r h12 hk h13
    have hp : parent env r = none := by
      rw [ancestor_succ_last, h12] at h13
      simpa using h13
    obtain ⟨ch, hch, hlen⟩ := ancestor_chain env 12 T r h12 hk hp
    exact ⟨ch, (DetermineHierarchy_ret_iff env T ch).mpr ⟨hch, by omega⟩, hlen⟩
  · intro n hn h
    exact (DetermineHierarchy_notRooted_iff env T).mpr (ancestor_isSome_mono env T n 13 hn h)

/-- The depth ceiling on the tower of structs: `T12` has exactly 12 parent
hops and yields 13 elements; `T14` has 14 hops and panics. -/
theorem DetermineHierarchy_depth_witness :
    (∃ ch, DetermineHierarchy deepEnv 12 = Outcome.ret ch ∧ ch.length = 13) ∧
    DetermineHierarchy deepEnv 14 = Outcome.panicNotRooted :=
  ⟨(DetermineHierarchy_depth deepEnv 12).2.1 0 (by decide) (by decide) (by decide),
   (DetermineHierarchy_depth deepEnv 14).2.2 14 (by decide) (by decide)⟩

/-- C9: every chain `DetermineHierarchy` returns, every chain `GetHierarchy`
returns on a reachable snapshot, and every chain stored in a reachable
snapshot has at least 1 and at most 13 elements. -/
theorem chain_length_bounds (env : TypeEnv Ty) :
    (∀ T ch, DetermineHierarchy env T = Outcome.ret ch → 1 ≤ ch.length ∧ ch.length ≤ 13) ∧
    (∀ hc, Reachable env hc → ∀ T ch, (GetHierarchy env T hc).1 = Outcome.ret ch →
        1 ≤ ch.length ∧ ch.length ≤ 13) ∧
    (∀ hc, Reachable env hc → ∀ k ch, HierarchyCache.get hc k = some ch →
        1 ≤ ch.length ∧ ch.length ≤ 13) := by
  have h1 : ∀ T ch, DetermineHierarchy env T = Outcome.ret ch →
      1 ≤ ch.length ∧ ch.length ≤ 13 := by
    intro T ch h
    obtain ⟨hch, hlen⟩ := (DetermineHierarchy_ret_iff env T ch).mp h
    obtain ⟨tl, rfl⟩ := IsChain_ne_nil env T ch hch
    exact ⟨by simp, hlen⟩
  refine ⟨h1, ?_, ?_⟩
  · intro hc hr T ch h
    rw [GetHierarchy_fst env T hc hr] at h
    exact h1 T ch h
  · intro hc hr k ch h
    exact h1 k ch ((Reachable_inv env hc hr).2 k ch h)

/-- Witness of C9: the chain stored for `E_Network` by a first call. -/
theorem chain_length_bounds_witness :
    1 ≤ [RepoType.E_Network, RepoType.E_IO, RepoType.E_Any].length ∧
    [RepoType.E_Network, RepoType.E_IO, RepoType.E_Any].length ≤ 13 :=
  (chain_length_bounds repoEnv).2.2
    (GetHierarchy repoEnv RepoType.E_Network HierarchyCache.make).2
    (Reachable.call RepoType.E_Network HierarchyCache.make Reachable.init)
    RepoType.E_Network [RepoType.E_Network, RepoType.E_IO, RepoType.E_Any] (by decide)

/-- C10: when the parent walk from `T` revisits a type, `DetermineHierarchy`
ends in the not-rooted panic and returns no chain; and in every chain it
returns no type occurs twice. -/
theorem DetermineHierarchy_rejects_cycles (env : TypeEnv Ty) :
    (∀ T, Revisits env T →
        DetermineHierarchy env T = Outcome.panicNotRooted ∧
        ∀ ch, DetermineHierarchy env T ≠ Outcome.ret ch) ∧
    (∀ T ch, DetermineHierarchy env T = Outcome.ret ch → ch.Nodup) := by
  constructor
  · intro T hrev
    have h := (DetermineHierarchy_notRooted_iff env T).mpr (revisits_unbounded env T hrev 13)
    refine ⟨h, ?_⟩
    intro ch hch
    rw [h] at hch
    cases hch
  · intro T ch h
    exact IsChain_nodup env T ch ((DetermineHierarchy_ret_iff env T ch).mp h).1

/-- Witness of C10: the walk from `A` of the two-type cycle is back on `A`
after two hops, and discovery panics; the chain of `E_Network` has no
repetition. -/
theorem DetermineHierarchy_rejects_cycles_witness :
    DetermineHierarchy cyclicEnv false = Outcome.panicNotRooted ∧
    [RepoType.E_Network, RepoType.E_IO, RepoType.E_Any].Nodup :=
  ⟨((DetermineHierarchy_rejects_cycles cyclicEnv).1 false
      ⟨0, 2, false, by decide, by decide, by decide⟩).1,
   (DetermineHierarchy_rejects_cycles repoEnv).2 RepoType.E_Network
      [RepoType.E_Network, RepoType.E_IO, RepoType.E_Any] (by decide)⟩

/-! ## Only the first field counts -/

theorem parent_congr (env1 env2 : TypeEnv Ty)
    (hk : ∀ t, env1.Kind t = env2.Kind t)
    (hf : ∀ t, (env1.Fields t).head? = (env2.Fields t).head?)
    (hi : ∀ t f, (env1.Fields t).head? = some f → env1.Implements f = env2.Implements f)
    (t : Ty) : parent env1 t = parent env2 t := by
  unfold parent
  rw [← hk t]
  by_cases hs : env1.Kind t = Kind.Struct
  · simp only [hs, if_true]
    have h1 := hf t
    have h2 := hi t
    cases hf1 : env1.Fields t with
    | nil =>
      cases hf2 : env2.Fields t with
      | nil => rfl
      | cons g rest2 => simp [hf1, hf2] at h1
    | cons f rest1 =>
      cases hf2 : env2.Fields t with
      | nil => simp [hf1, hf2] at h1
      | cons g rest2 =>
        simp only [hf1, hf2, List.head?_cons, Option.some.injEq] at h1 h2
        subst h1
        simp only [h2 f rfl]
  · simp [hs]

theorem loop_congr (env1 env2 : TypeEnv Ty)
    (hk : ∀ t, env1.Kind t = env2.Kind t)
    (hp : ∀ t, parent env1 t = parent env2 t) :
    ∀ (fuel i : Nat) (hier : TerrorHierarchy Ty) (typ : Ty),
      DetermineHierarchy.loop env1 fuel i hier typ
        = DetermineHierarchy.loop env2 fuel i hier typ := by
  intro fuel
  induction fuel with
  | zero => intro i hier typ; rfl
  | succ fuel ih =>
    intro i hier typ
    rw [loop_succ, loop_succ, ← hk typ, ← hp typ]
    by_cases hs : env1.Kind typ = Kind.Struct
    · simp only [hs, if_true]
      cases hpt : parent env1 typ with
      | none => rfl
      | some p =>
        by_cases h12 : 12 ≤ i
        · simp [h12]
        · simp only [if_neg h12]
          exact ih (i + 1) (hier ++ [typ]) p
    · simp [hs]

/-- C11: a struct type with fields whose first field has a type that does
not implement `Terror` yields the chain of itself alone, whatever its later
fields are; and two programs that agree on the kinds, on the first field of
every type and on which first-field types implement `Terror` give every type
the same chain. -/
theorem DetermineHierarchy_first_field_only :
    (∀ (env : TypeEnv Ty) (T f : Ty) (rest : List Ty),
        env.Kind T = Kind.Struct → env.Fields T = f :: rest → env.Implements f = false →
        DetermineHierarchy env T = Outcome.ret [T]) ∧
    (∀ (env1 env2 : TypeEnv Ty),
        (∀ t, env1.Kind t = env2.Kind t) →
        (∀ t, (env1.Fields t).head? = (env2.Fields t).head?) →
        (∀ t f, (env1.Fields t).head? = some f → env1.Implements f = env2.Implements f) →
        ∀ T, DetermineHierarchy env1 T = DetermineHierarchy env2 T) := by
  constructor
  · intro env T f rest hk hf hi
    have hp : parent env T = none := by simp [parent, hk, hf, hi]
    exact (DetermineHierarchy_ret_iff env T [T]).mpr ⟨IsChain.root T hk hp, by simp⟩
  · intro env1 env2 hk hf hi T
    exact loop_congr env1 env2 hk (parent_congr env1 env2 hk hf hi) 13 0 [] T

/-- Witness of C11: `E_Any`, whose first field `HelpfulError` is not a
`Terror`, yields `[E_Any]`; so does a `E_Network` declared with payload first
and `E_IO` second; and `E_Network` has the chain of the repository when
`E_IO` gets a second field. -/
theorem DetermineHierarchy_first_field_only_witness :
    DetermineHierarchy repoEnv RepoType.E_Any = Outcome.ret [RepoType.E_Any] ∧
    DetermineHierarchy mixedEnv RepoType.E_Network = Outcome.ret [RepoType.E_Network] ∧
    DetermineHierarchy repoEnv RepoType.E_Network
      = DetermineHierarchy payloadEnv RepoType.E_Network :=
  ⟨(@DetermineHierarchy_first_field_only RepoType _).1 repoEnv RepoType.E_Any
      RepoType.HelpfulError [] (by decide) (by decide) (by decide),
   (@DetermineHierarchy_first_field_only RepoType _).1 mixedEnv RepoType.E_Network
      RepoType.HelpfulError [ RepoType.E_IO] (by decide) (by decide) (by decide),
   (@DetermineHierarchy_first_field_only RepoType _).2 repoEnv payloadEnv
      (fun _ => rfl) (fun t => by cases t <;> rfl) (fun _ _ _ => rfl) RepoType.E_Network⟩

/-! ## TerrorHierarchy.String -/

theorem buf_foldl (env : TypeEnv Ty) :
    ∀ (rest : TerrorHierarchy Ty) (acc : String),
      rest.foldl (fun buf t => (buf ++ (env.Name t).data) ++ [',']) (acc.data ++ [','])
        = (String.intercalate.go acc "," (rest.map env.Name)).data ++ [','] := by
  intro rest
  induction rest with
  | nil => intro acc; simp [String.intercalate.go]
  | cons t rest ih =>
    intro acc
    have h := ih (acc ++ "," ++ env.Name t)
    simp only [String.data_append] at h
    simp only [List.foldl_cons, List.map_cons, String.intercalate.go]
    exact h

theorem String_cons (env : TypeEnv Ty) (t : Ty) (rest : TerrorHierarchy Ty) :
    TerrorHierarchy.String env (t :: rest)
      = String.intercalate "," ((t :: rest).map env.Name) := by
  have h := buf_foldl env rest (env.Name t)
  simp only [TerrorHierarchy.String, List.length_cons, List.foldl_cons, List.nil_append,
    List.map_cons, String.intercalate]
  rw [if_neg (by omega), h]
  simp

theorem go_data_prefix :
    ∀ (l : List String) (acc : String),
      ∃ suf, (String.intercalate.go acc "," l).data = acc.data ++ suf := by
  intro l
  induction l with
  | nil => intro acc; exact ⟨[], by simp [String.intercalate.go]⟩
  | cons a l ih =>
    intro acc
    obtain ⟨suf, h⟩ := ih (acc ++ "," ++ a)
    refine ⟨[','] ++ a.data ++ suf, ?_⟩
    simp only [String.intercalate.go, h, String.data_append]
    simp

theorem go_data_last :
    ∀ (l : List String) (acc : String),
      (∀ a ∈ l, a.data ≠ [] ∧ a.data.getLast? ≠ some ',') →
      acc.data ≠ [] → acc.data.getLast? ≠ some ',' →
      (String.intercalate.go acc "," l).data.getLast? ≠ some ',' := by
  intro l
  induction l with
  | nil => intro acc _ _ h; simpa [String.intercalate.go] using h
  | cons a l ih =>
    intro acc hl hne hlast
    have ha := hl a (List.mem_cons_self _ _)
    simp only [String.intercalate.go]
    apply ih (acc ++ "," ++ a) (fun b hb => hl b (List.mem_cons_of_mem _ hb))
    · simp [String.data_append, hne]
    · simp only [String.data_append]
      rw [List.getLast?_append_of_ne_nil _ ha.1]
      exact ha.2

theorem name_data_ne_nil (a : String) (h : a ≠ "") : a.data ≠ [] := by
  intro hd
  apply h
  cases a with
  | mk d =>
    simp only at hd
    subst hd
    rfl

theorem not_last_of_not_mem (l : List Char) (h : ',' ∉ l) : l.getLast? ≠ some ',' := by
  intro hl
  exact h (List.mem_of_getLast?_eq_some hl)

/-- C12, the claim as stated fails: `DetermineHierarchy` returns the chain of
the unnamed type `struct{ E_Any }`, whose name is empty, and `String` renders
that chain as `",E_Any"`, which starts with a comma. -/
theorem TerrorHierarchy_String_counterexample :
    DetermineHierarchy anonEnv none = Outcome.ret [none, some RepoType.E_Any] ∧
    [none, some RepoType.E_Any] ≠ ([] : TerrorHierarchy (Option RepoType)) ∧
    TerrorHierarchy.String anonEnv [none, some RepoType.E_Any] = ",E_Any" ∧
    (TerrorHierarchy.String anonEnv [none, some RepoType.E_Any]).data.head? = some ',' := by
  decide

/-- C12, amended: `String` of the empty chain is `"-"`; of a non-empty chain
it is the names of the elements in chain order joined by `","`; and when the
names are non-empty and have no comma in them (as the names of declared Go
types are), the result neither starts nor ends with a comma. -/
theorem TerrorHierarchy_String_joined (env : TypeEnv Ty) :
    TerrorHierarchy.String env [] = "-" ∧
    (∀ th : TerrorHierarchy Ty, th ≠ [] →
        TerrorHierarchy.String env th = String.intercalate "," (th.map env.Name)) ∧
    (∀ th : TerrorHierarchy Ty, th ≠ [] →
        (∀ t ∈ th, env.Name t ≠ "" ∧ ',' ∉ (env.Name t).data) →
        (TerrorHierarchy.String env th).data.head? ≠ some ',' ∧
        (TerrorHierarchy.String env th).data.getLast? ≠ some ',') := by
  refine ⟨rfl, ?_, ?_⟩
  · intro th hne
    cases th with
    | nil => exact absurd rfl hne
    | cons t rest => exact String_cons env t rest
  · intro th hne hnames
    cases th with
    | nil => exact absurd rfl hne
    | cons t rest =>
      rw [String_cons]
      simp only [List.map_cons, String.intercalate]
      have ht := hnames t (List.mem_cons_self _ _)
      have htd := name_data_ne_nil _ ht.1
      constructor
      · obtain ⟨suf, hs⟩ := go_data_prefix (rest.map env.Name) (env.Name t)
        rw [hs]
        cases hd : (env.Name t).data with
        | nil => exact absurd hd htd
        | cons x xs =>
          simp only [List.cons_append, List.head?_cons, ne_eq, Option.some.injEq]
          intro hx
          apply ht.2
          rw [hd, hx]
          exact List.mem_cons_self _ _
      · apply go_data_last (rest.map env.Name) (env.Name t) _ htd
          (not_last_of_not_mem _ ht.2)
        intro a ha
        obtain ⟨u, hu, rfl⟩ := List.mem_map.mp ha
        have hu1 := hnames u (List.mem_cons_of_mem _ hu)
        exact ⟨name_data_ne_nil _ hu1.1, not_last_of_not_mem _ hu1.2⟩

/-- Witness of amended C12: the chain of `E_Network` renders as
`"E_Network,E_IO,E_Any"`. -/
theorem TerrorHierarchy_String_joined_witness :
    TerrorHierarchy.String repoEnv [RepoType.E_Network, RepoType.E_IO, RepoType.E_Any]
      = "E_Network,E_IO,E_Any" ∧
    (TerrorHierarchy.String repoEnv
        [RepoType.E_Network, RepoType.E_IO, RepoType.E_Any]).data.head? ≠ some ',' :=
  ⟨((TerrorHierarchy_String_joined repoEnv).2.1
      [RepoType.E_Network, RepoType.E_IO, RepoType.E_Any] (by decide)).trans (by decide),
   ((TerrorHierarchy_String_joined repoEnv).2.2
      [RepoType.E_Network, RepoType.E_IO, RepoType.E_Any] (by decide) (by decide)).1⟩

/-! ## The effect of a call on the cache -/

/-- What `GetHierarchy` does on a map without duplicate keys that has no
entry for `typ`, when discovery returns. -/
theorem GetHierarchy_miss (env : TypeEnv Ty) (typ : Ty) (hc : HierarchyCache Ty)
    (th : TerrorHierarchy Ty) (hn : (hc.map Prod.fst).Nodup)
    (hg : HierarchyCache.get hc typ = none)
    (hd : DetermineHierarchy env typ = Outcome.ret th) :
    GetHierarchy env typ hc = (Outcome.ret th, hc ++ [(typ, th)]) := by
  simp only [GetHierarchy, hg, hd, store_eq hc typ th hn hg]

/-- C13: on a map (one entry per key), a call of `GetHierarchy(T)` that finds
`T` returns its entry and leaves the snapshot as it is; a call that does not
find `T` and whose discovery returns `th` returns `th` and leaves a snapshot
that has every entry of the one read, unchanged, the entry of `T` with `th`,
and no other key. -/
theorem GetHierarchy_cache_effect (env : TypeEnv Ty) (hc : HierarchyCache Ty)
    (hn : (hc.map Prod.fst).Nodup) (T : Ty) :
    (∀ th, HierarchyCache.get hc T = some th →
        GetHierarchy env T hc = (Outcome.ret th, hc)) ∧
    (∀ th, HierarchyCache.get hc T = none → DetermineHierarchy env T = Outcome.ret th →
        (GetHierarchy env T hc).1 = Outcome.ret th ∧
        (∀ k v, HierarchyCache.get hc k = some v →
            HierarchyCache.get (GetHierarchy env T hc).2 k = some v) ∧
        HierarchyCache.get (GetHierarchy env T hc).2 T = some th ∧
        (∀ k, k ≠ T →
            HierarchyCache.get (GetHierarchy env T hc).2 k = HierarchyCache.get hc k) ∧
        (GetHierarchy env T hc).2.map Prod.fst = hc.map Prod.fst ++ [T]) := by
  constructor
  · intro th hg
    simp [GetHierarchy, hg]
  · intro th hg hd
    rw [GetHierarchy_miss env T hc th hn hg hd]
    refine ⟨rfl, ?_, ?_, ?_, ?_⟩
    · intro k v hk
      simp only [get_append_single, hk]
    · simp only [get_append_single, hg, if_true]
    · intro k hne
      have hne1 : ¬ T = k := fun e => hne e.symm
      simp only [get_append_single, if_neg hne1]
      cases HierarchyCache.get hc k <;> rfl
    · simp

/-- Witness of C13: a call on `E_Network` from the snapshot that holds
`E_IO` keeps the entry of `E_IO`. -/
theorem GetHierarchy_cache_effect_witness :
    HierarchyCache.get
        (GetHierarchy repoEnv RepoType.E_Network
          [( RepoType.E_IO, [ RepoType.E_IO, RepoType.E_Any])]).2 RepoType.E_IO
      = some [ RepoType.E_IO, RepoType.E_Any] :=
  ((GetHierarchy_cache_effect repoEnv [( RepoType.E_IO, [ RepoType.E_IO, RepoType.E_Any])]
      (by decide) RepoType.E_Network).2
    [RepoType.E_Network, RepoType.E_IO, RepoType.E_Any] (by decide) (by decide)).2.1
    RepoType.E_IO [ RepoType.E_IO, RepoType.E_Any] (by decide)

/-! ## Calls that interleave -/

theorem step_inv (env : TypeEnv Ty) (w : World Ty) (e : Event Ty)
    (ha : Reachable env w.atom)
    (hp : ∀ p ∈ w.pending, Reachable env p.hc ∧ HierarchyCache.get p.hc p.typ = none) :
    Reachable env (World.step env w e).atom ∧
      ∀ p ∈ (World.step env w e).pending,
        Reachable env p.hc ∧ HierarchyCache.get p.hc p.typ = none := by
  cases e with
  | load typ =>
    cases hg : HierarchyCache.get w.atom typ with
    | some th =>
      simp only [World.step, hg]
      exact ⟨ha, hp⟩
    | none =>
      simp only [World.step, hg]
      refine ⟨ha, ?_⟩
      intro p hmem
      rcases List.mem_append.mp hmem with h1 | h1
      · exact hp p h1
      · simp only [List.mem_singleton] at h1
        subst h1
        exact ⟨ha, hg⟩
  | store i =>
    cases hi : w.pending[i]? with
    | none =>
      simp only [World.step, hi]
      exact ⟨ha, hp⟩
    | some q =>
      have hq := hp q (List.getElem?_mem hi)
      have hrest : ∀ p ∈ w.pending.eraseIdx i,
          Reachable env p.hc ∧ HierarchyCache.get p.hc p.typ = none :=
        fun p hmem => hp p (List.mem_of_mem_eraseIdx hmem)
      cases hd : DetermineHierarchy env q.typ with
      | ret th =>
        simp only [World.step, hi, hd]
        refine ⟨?_, hrest⟩
        have hcall := Reachable.call q.typ q.hc hq.1
        simpa [GetHierarchy, hq.2, hd] using hcall
      | panicNotRooted =>
        simp only [World.step, hi, hd]
        exact ⟨ha, hrest⟩
      | panicReflect =>
        simp only [World.step, hi, hd]
        exact ⟨ha, hrest⟩
      | outOfFuel =>
        simp only [World.step, hi, hd]
        exact ⟨ha, hrest⟩

theorem run_inv (env : TypeEnv Ty) :
    ∀ (evs : List (Event Ty)) (w : World Ty), Reachable env w.atom →
      (∀ p ∈ w.pending, Reachable env p.hc ∧ HierarchyCache.get p.hc p.typ = none) →
      Reachable env (World.run env w evs).atom := by
  intro evs
  induction evs with
  | nil => intro w ha _; exact ha
  | cons e evs ih =>
    intro w ha hp
    obtain ⟨ha1, hp1⟩ := step_inv env w e ha hp
    exact ih (World.step env w e) ha1 hp1

theorem run_init_reachable (env : TypeEnv Ty) (evs : List (Event Ty)) :
    Reachable env (World.run env World.init evs).atom :=
  run_inv env evs World.init Reachable.init (by simp [World.init])

/-- C14, the claim as stated fails: two calls load the empty snapshot; the
first stores the entry of `E_IO`; the second then stores its copy of the
empty snapshot plus the entry of `E_Network`, and the entry of `E_IO` is
gone from the published snapshot. -/
theorem cache_monotone_counterexample :
    HierarchyCache.get (World.run repoEnv World.init
        [Event.load RepoType.E_IO, Event.load RepoType.E_Network, Event.store 0]).atom
      RepoType.E_IO = some [ RepoType.E_IO, RepoType.E_Any] ∧
    HierarchyCache.get (World.run repoEnv World.init
        ([Event.load RepoType.E_IO, Event.load RepoType.E_Network, Event.store 0]
          ++ [Event.store 0])).atom
      RepoType.E_IO = none := by
  decide

/-- C14, amended: a call whose `Store` follows its `Load` with nothing in
between keeps every entry of the snapshot; in every interleaving each entry
of the published snapshot is what `DetermineHierarchy` returns on its key,
and a type whose entry was published once gets that same chain from
`GetHierarchy` on every later published snapshot, also when a stale `Store`
has dropped the entry. -/
theorem cache_growth (env : TypeEnv Ty) :
    (∀ hc : HierarchyCache Ty, (hc.map Prod.fst).Nodup → ∀ T k v,
        HierarchyCache.get hc k = some v →
        HierarchyCache.get (GetHierarchy env T hc).2 k = some v) ∧
    (∀ (evs : List (Event Ty)) k v,
        HierarchyCache.get (World.run env World.init evs).atom k = some v →
        DetermineHierarchy env k = Outcome.ret v) ∧
    (∀ (evs1 evs2 : List (Event Ty)) k v,
        HierarchyCache.get (World.run env World.init evs1).atom k = some v →
        (GetHierarchy env k (World.run env World.init (evs1 ++ evs2)).atom).1
          = Outcome.ret v) := by
  refine ⟨?_, ?_, ?_⟩
  · intro hc hn T k v hk
    cases hg : HierarchyCache.get hc T with
    | some th => simpa [GetHierarchy, hg] using hk
    | none =>
      cases hd : DetermineHierarchy env T with
      | ret th =>
        rw [GetHierarchy_miss env T hc th hn hg hd]
        simp only [get_append_single, hk]
      | panicNotRooted => simpa [GetHierarchy, hg, hd] using hk
      | panicReflect => simpa [GetHierarchy, hg, hd] using hk
      | outOfFuel => simpa [GetHierarchy, hg, hd] using hk
  · intro evs k v hk
    exact (Reachable_inv env _ (run_init_reachable env evs)).2 k v hk
  · intro evs1 evs2 k v hk
    rw [GetHierarchy_fst env k _ (run_init_reachable env (evs1 ++ evs2))]
    exact (Reachable_inv env _ (run_init_reachable env evs1)).2 k v hk

/-- Witness of amended C14: after the stale store has dropped the entry of
`E_IO`, a call on `E_IO` returns the chain that had been published. -/
theorem cache_growth_witness :
    (GetHierarchy repoEnv RepoType.E_IO (World.run repoEnv World.init
        ([Event.load RepoType.E_IO, Event.load RepoType.E_Network, Event.store 0]
          ++ [Event.store 0])).atom).1
      = Outcome.ret [ RepoType.E_IO, RepoType.E_Any] :=
  (cache_growth repoEnv).2.2
    [Event.load RepoType.E_IO, Event.load RepoType.E_Network, Event.store 0]
    [Event.store 0] RepoType.E_IO [ RepoType.E_IO, RepoType.E_Any] (by decide)

/-! ## The outcomes of Is -/

/-- The loop ends in a panic of package `reflect` exactly when the walk
meets a type that is not a struct before the depth ceiling. -/
theorem loop_reflect (env : TypeEnv Ty) :
    ∀ (fuel i : Nat) (hier : TerrorHierarchy Ty) (typ : Ty),
      i ≤ 12 → 13 ≤ fuel + i →
      (DetermineHierarchy.loop env fuel i hier typ = Outcome.panicReflect
        ↔ ∃ n x, n + i ≤ 12 ∧ ancestor env n typ = some x ∧ env.Kind x ≠ Kind.Struct) := by
  intro fuel
  induction fuel with
  | zero =>
    intro i hier typ h1 h2
    omega
  | succ fuel ih =>
    intro i hier typ h1 h2
    rw [loop_succ]
    by_cases hk : env.Kind typ = Kind.Struct
    · rw [if_pos hk]
      cases hp : parent env typ with
      | none =>
        simp only [false_iff, reduceCtorEq]
        rintro ⟨n, x, _, hx, hkx⟩
        cases n with
        | zero =>
          simp only [ancestor, Option.some.injEq] at hx
          subst hx
          exact hkx hk
        | succ n => simp [ancestor, hp] at hx
      | some p =>
        by_cases h12 : 12 ≤ i
        · simp only [h12, if_true, false_iff, reduceCtorEq]
          rintro ⟨n, x, hn, hx, hkx⟩
          have : n = 0 := by omega
          subst this
          simp only [ancestor, Option.some.injEq] at hx
          subst hx
          exact hkx hk
        · simp only [if_neg h12]
          rw [ih (i + 1) (hier ++ [typ]) p (by omega) (by omega)]
          constructor
          · rintro ⟨n, x, hn, hx, hkx⟩
            exact ⟨n + 1, x, by omega, by simp [ancestor, hp, hx], hkx⟩
          · rintro ⟨n, x, hn, hx, hkx⟩
            cases n with
            | zero =>
              simp only [ancestor, Option.some.injEq] at hx
              subst hx
              exact absurd hk hkx
            | succ n =>
              simp only [ancestor, hp, Option.some_bind] at hx
              exact ⟨n, x, by omega, hx, hkx⟩
    · simp only [if_neg hk, true_iff]
      exact ⟨0, typ, by omega, rfl, hk⟩

theorem DetermineHierarchy_reflect_iff (env : TypeEnv Ty) (T : Ty) :
    DetermineHierarchy env T = Outcome.panicReflect
      ↔ ∃ n x, n ≤ 12 ∧ ancestor env n T = some x ∧ env.Kind x ≠ Kind.Struct := by
  have h := loop_reflect env 13 0 [] T (by omega) (by omega)
  simpa [DetermineHierarchy] using h

/-- C15, the code at the failing inputs: the claim gives a boolean or the
not-rooted panic and no other failure; `Is` on a `Code` (a named string type
that implements `Terror`) ends in a panic of package `reflect`, and so does
`Is` on a `P2`, whose first field has the pointer type `*R` that implements
`Terror`. -/
theorem Is_nonstruct_panics :
    scalarEnv.Kind (stripPtr scalarEnv false) ≠ Kind.Struct ∧
    (Is scalarEnv (some false) (some false) HierarchyCache.make).1 = Outcome.panicReflect ∧
    ptrRootEnv.Fields 2 = [1] ∧ ptrRootEnv.Kind 1 = Kind.Ptr ∧
    ptrRootEnv.Implements 1 = true ∧
    (Is ptrRootEnv (some 2) (some 0) HierarchyCache.make).1 = Outcome.panicReflect := by
  decide

/-- What the code does, the defect included: on every reachable snapshot `Is`
returns a boolean, or ends in the not-rooted panic, or ends in a panic of
package `reflect`; the last happens exactly when both operands are non-nil
and the parent walk from the stripped type of the subject meets, within 12
hops, a type that is not a struct; the not-rooted panic happens exactly when
both operands are non-nil and that walk has 13 hops. -/
theorem Is_outcomes (env : TypeEnv Ty) (hc : HierarchyCache Ty) (hr : Reachable env hc)
    (this that : Option Ty) :
    ((∃ b, (Is env this that hc).1 = Outcome.ret b) ∨
      (Is env this that hc).1 = Outcome.panicNotRooted ∨
      (Is env this that hc).1 = Outcome.panicReflect) ∧
    ((Is env this that hc).1 = Outcome.panicReflect ↔
      ∃ d1 d2, this = some d1 ∧ that = some d2 ∧
        ∃ n x, n ≤ 12 ∧ ancestor env n (stripPtr env d1) = some x ∧
          env.Kind x ≠ Kind.Struct) ∧
    ((Is env this that hc).1 = Outcome.panicNotRooted ↔
      ∃ d1 d2, this = some d1 ∧ that = some d2 ∧
        (ancestor env 13 (stripPtr env d1)).isSome = true) := by
  cases this with
  | none => simp [Is]
  | some d1 =>
    cases that with
    | none => simp [Is]
    | some d2 =>
      have hfuel := DetermineHierarchy_fuel env (stripPtr env d1)
      have hrefl := DetermineHierarchy_reflect_iff env (stripPtr env d1)
      have hroot := DetermineHierarchy_notRooted_iff env (stripPtr env d1)
      rw [Is_fst, GetHierarchy_fst env _ hc hr]
      cases hd : DetermineHierarchy env (stripPtr env d1) with
      | ret ch =>
        rw [hd] at hrefl hroot
        refine ⟨Or.inl ⟨_, rfl⟩, ?_, ?_⟩
        · simpa using hrefl
        · simpa using hroot
      | panicNotRooted =>
        rw [hd] at hrefl hroot
        refine ⟨Or.inr (Or.inl rfl), ?_, ?_⟩
        · simpa using hrefl
        · simpa using hroot
      | panicReflect =>
        rw [hd] at hrefl hroot
        refine ⟨Or.inr (Or.inr rfl), ?_, ?_⟩
        · simpa using hrefl
        · simpa using hroot
      | outOfFuel => exact absurd hd hfuel

/-- The outcomes of `Is` on a `*E_Network` and a `E_IO`: a boolean or one
of the two panics. -/
theorem Is_outcomes_witness :
    (∃ b, (Is repoEnv (some (RepoType.ptr RepoType.E_Network)) (some RepoType.E_IO)
        HierarchyCache.make).1 = Outcome.ret b) ∨
    (Is repoEnv (some (RepoType.ptr RepoType.E_Network)) (some RepoType.E_IO)
        HierarchyCache.make).1 = Outcome.panicNotRooted ∨
    (Is repoEnv (some (RepoType.ptr RepoType.E_Network)) (some RepoType.E_IO)
        HierarchyCache.make).1 = Outcome.panicReflect :=
  (Is_outcomes repoEnv HierarchyCache.make Reachable.init
    (some (RepoType.ptr RepoType.E_Network)) (some RepoType.E_IO)).1

/-! ## Suffixes of chains -/

theorem IsChain_drop (env : TypeEnv Ty) (t : Ty) (ch : List Ty) (h : IsChain env t ch) :
    ∀ (k : Nat) (x : Ty), ch[k]? = some x → IsChain env x (ch.drop k) := by
  induction h with
  | root t hk hp =>
    intro k x hx
    cases k with
    | zero =>
      simp only [List.getElem?_cons_zero, Option.some.injEq] at hx
      subst hx
      exact IsChain.root t hk hp
    | succ k => simp at hx
  | hop t p tl hp hc ih =>
    intro k x hx
    cases k with
    | zero =>
      simp only [List.getElem?_cons_zero, Option.some.injEq] at hx
      subst hx
      exact IsChain.hop t p tl hp hc
    | succ k =>
      rw [List.getElem?_cons_succ] at hx
      simpa using ih k x hx

/-- C16: when `DetermineHierarchy` returns the chain `ch` on `T`, it returns
on every element of `ch`, and what it returns on the element at index `k` is
`ch` from index `k` on. -/
theorem DetermineHierarchy_suffix_closed (env : TypeEnv Ty) (T : Ty) (ch : TerrorHierarchy Ty)
    (h : DetermineHierarchy env T = Outcome.ret ch) :
    ∀ (k : Nat) (x : Ty), ch[k]? = some x →
      DetermineHierarchy env x = Outcome.ret (ch.drop k) := by
  intro k x hx
  obtain ⟨hch, hlen⟩ := (DetermineHierarchy_ret_iff env T ch).mp h
  refine (DetermineHierarchy_ret_iff env x (ch.drop k)).mpr ⟨IsChain_drop env T ch hch k x hx, ?_⟩
  simp only [List.length_drop]
  omega

/-- Witness of C16: the chain of `E_Network` from index 1 on is the chain of
`E_IO`. -/
theorem DetermineHierarchy_suffix_closed_witness :
    DetermineHierarchy repoEnv RepoType.E_IO
      = Outcome.ret ([RepoType.E_Network, RepoType.E_IO, RepoType.E_Any].drop 1) :=
  DetermineHierarchy_suffix_closed repoEnv RepoType.E_Network
    [RepoType.E_Network, RepoType.E_IO, RepoType.E_Any] (by decide) 1 RepoType.E_IO rfl

/-! ## Transitivity -/

theorem Is_ret_true_iff (env : TypeEnv Ty) (hc : HierarchyCache Ty) (hr : Reachable env hc)
    (d1 d2 : Ty) :
    (Is env (some d1) (some d2) hc).1 = Outcome.ret true ↔
      ∃ ch, DetermineHierarchy env (stripPtr env d1) = Outcome.ret ch ∧
        stripPtr env d2 ∈ ch := by
  rw [Is_fst, GetHierarchy_fst env _ hc hr]
  cases hd : DetermineHierarchy env (stripPtr env d1) with
  | ret ch => simp [scan_iff]
  | panicNotRooted => simp
  | panicReflect => simp
  | outOfFuel => simp

/-- C17: for non-nil `a`, `b` and `c` (given by their dynamic types), when
`Is(a, b)` returns true and `Is(b, c)` returns true, each on a reachable
snapshot, `Is(a, c)` returns true on every reachable snapshot. -/
theorem Is_trans (env : TypeEnv Ty) (hc1 hc2 hc3 : HierarchyCache Ty)
    (hr1 : Reachable env hc1) (hr2 : Reachable env hc2) (hr3 : Reachable env hc3)
    (a b c : Ty)
    (hab : (Is env (some a) (some b) hc1).1 = Outcome.ret true)
    (hbc : (Is env (some b) (some c) hc2).1 = Outcome.ret true) :
    (Is env (some a) (some c) hc3).1 = Outcome.ret true := by
  obtain ⟨cha, hda, hba⟩ := (Is_ret_true_iff env hc1 hr1 a b).mp hab
  obtain ⟨chb, hdb, hcb⟩ := (Is_ret_true_iff env hc2 hr2 b c).mp hbc
  have hcha := ((DetermineHierarchy_ret_iff env _ cha).mp hda).1
  have hchb := ((DetermineHierarchy_ret_iff env _ chb).mp hdb).1
  obtain ⟨pre, s, hps, hs⟩ := IsChain_suffix env _ cha hcha _ hba
  have hsb := IsChain_unique env _ s hs chb hchb
  subst hsb
  refine (Is_ret_true_iff env hc3 hr3 a c).mpr ⟨cha, hda, ?_⟩
  rw [hps]
  exact List.mem_append_right _ hcb

/-- Witness of C17: a `*E_Network` is a `E_IO`, a `E_IO` is a `E_Any`, and
so a `*E_Network` is a `E_Any`. -/
theorem Is_trans_witness :
    (Is repoEnv (some (RepoType.ptr RepoType.E_Network)) (some RepoType.E_Any)
        HierarchyCache.make).1 = Outcome.ret true :=
  Is_trans repoEnv HierarchyCache.make HierarchyCache.make HierarchyCache.make
    Reachable.init Reachable.init Reachable.init
    (RepoType.ptr RepoType.E_Network) RepoType.E_IO RepoType.E_Any
    (by decide) (by decide)

/-! ## A panicking call and the cache -/

/-- C18: when `GetHierarchy(T)`, or `Is` on a subject whose stripped type is
`T`, ends in the not-rooted panic on a reachable snapshot, the atom holds the
snapshot it held before, which has no entry for `T`; and on every reachable
snapshot `GetHierarchy(T)` and `Is` on such a subject end in that panic
again, leave the snapshot as it is, and find no entry for `T`. -/
theorem GetHierarchy_panic_atomic (env : TypeEnv Ty) (hc : HierarchyCache Ty)
    (hr : Reachable env hc) (T : Ty)
    (h : (GetHierarchy env T hc).1 = Outcome.panicNotRooted ∨
      ∃ d that, stripPtr env d = T ∧
        (Is env (some d) (some that) hc).1 = Outcome.panicNotRooted) :
    ∀ hc2, Reachable env hc2 →
      GetHierarchy env T hc2 = (Outcome.panicNotRooted, hc2) ∧
      HierarchyCache.get hc2 T = none ∧
      HierarchyCache.get (GetHierarchy env T hc2).2 T = none ∧
      ∀ d that, stripPtr env d = T →
        Is env (some d) (some that) hc2 = (Outcome.panicNotRooted, hc2) := by
  have hd : DetermineHierarchy env T = Outcome.panicNotRooted := by
    rcases h with h | ⟨d, that, hs, h⟩
    · rw [GetHierarchy_fst env T hc hr] at h
      exact h
    · rw [Is_fst, GetHierarchy_fst env _ hc hr, hs] at h
      cases hdt : DetermineHierarchy env T with
      | ret ch => simp [hdt] at h
      | panicNotRooted => rfl
      | panicReflect => simp [hdt] at h
      | outOfFuel => simp [hdt] at h
  intro hc2 hr2
  have hg : HierarchyCache.get hc2 T = none := by
    cases hg : HierarchyCache.get hc2 T with
    | none => rfl
    | some th =>
      have := (Reachable_inv env hc2 hr2).2 T th hg
      rw [hd] at this
      cases this
  have hgh : GetHierarchy env T hc2 = (Outcome.panicNotRooted, hc2) := by
    simp [GetHierarchy, hg, hd]
  refine ⟨hgh, hg, by rw [hgh]; exact hg, ?_⟩
  intro d that hs
  simp only [Is, hs, hgh]

/-- Witness of C18: `GetHierarchy` on `T13` of the tower panics on the empty
cache, and panics again after a call on `T3` has stored an entry, with no
entry for `T13` stored. -/
theorem GetHierarchy_panic_atomic_witness :
    GetHierarchy deepEnv 13 (GetHierarchy deepEnv 3 HierarchyCache.make).2
      = (Outcome.panicNotRooted, (GetHierarchy deepEnv 3 HierarchyCache.make).2) :=
  (GetHierarchy_panic_atomic deepEnv HierarchyCache.make Reachable.init 13
    (Or.inl (by decide))
    (GetHierarchy deepEnv 3 HierarchyCache.make).2
    (Reachable.call 3 HierarchyCache.make Reachable.init)).1

end Terror
